import Mathlib

set_option maxRecDepth 16000

/-!
Verification development for the pure core of the `pants-sls-distribution`
plugin: version/identity grammar (`_types.py`), validation engine
(`_validation.py`), lock-file codec (`_lock_file.py`), check-script generator
(`_check_script.py`), hook-path validation (`_hooks.py`) and layout assembly
(`_layout.py`, `_asset_layout.py`).

Strings are modelled as lists of characters (`Str`).  The regular expressions
used by the source are simple anchored patterns; each is translated into an
equivalent executable matcher over `Str`.  One point of Python `re` semantics
matters throughout: for a pattern anchored as `^...$`, `pattern.match(s)` also
succeeds when the body matches `s` minus a single trailing newline, because
`$` matches just before a trailing `"\n"`.  This is modelled by
`pyDollarMatch`.
-/

abbrev Str := List Char

def str (s : String) : Str := s.data

/-! ### Character classes (by code point) -/

def isDigitCh (c : Char) : Bool := 48 ≤ c.toNat && c.toNat ≤ 57

def isLowerCh (c : Char) : Bool := 97 ≤ c.toNat && c.toNat ≤ 122

def isUpperCh (c : Char) : Bool := 65 ≤ c.toNat && c.toNat ≤ 90

def isHexLowerCh (c : Char) : Bool := isDigitCh c || (97 ≤ c.toNat && c.toNat ≤ 102)

/-- The class `[a-z0-9.-]` (product group characters; also the continuation
class of product names). -/
def isGroupCh (c : Char) : Bool := isLowerCh c || isDigitCh c || c == '.' || c == '-'

/-- The class `[a-zA-Z0-9_.-]` used for hook script basenames. -/
def isHookNameCh (c : Char) : Bool :=
  isUpperCh c || isLowerCh c || isDigitCh c || c == '_' || c == '.' || c == '-'

/-- The class `[a-z-]` used for hook phase names. -/
def isPhaseCh (c : Char) : Bool := isLowerCh c || c == '-'

/-- Whitespace for Python `str.strip()` and the regex class `\s`. -/
def isPySpaceCh (c : Char) : Bool :=
  c.toNat == 32 || (9 ≤ c.toNat && c.toNat ≤ 13) || (28 ≤ c.toNat && c.toNat ≤ 31) ||
  c.toNat == 133 || c.toNat == 160 || c.toNat == 5760 ||
  (8192 ≤ c.toNat && c.toNat ≤ 8202) || c.toNat == 8232 || c.toNat == 8233 ||
  c.toNat == 8239 || c.toNat == 8287 || c.toNat == 12288

/-- Line terminators for Python `str.splitlines()`. -/
def isLineTermCh (c : Char) : Bool :=
  c.toNat == 10 || c.toNat == 11 || c.toNat == 12 || c.toNat == 13 ||
  (28 ≤ c.toNat && c.toNat ≤ 30) || c.toNat == 133 || c.toNat == 8232 || c.toNat == 8233

/-! ### Python string helpers -/

def dropWhileEnd (p : Char → Bool) (cs : Str) : Str := (cs.reverse.dropWhile p).reverse

/-- Python `str.strip()`. -/
def pyStrip (cs : Str) : Str := dropWhileEnd isPySpaceCh (cs.dropWhile isPySpaceCh)

/-- Python `str.splitlines()` worker: `cur` is the current line, reversed;
`sawCR` records whether the previous character was `'\r'`, so that a
following `'\n'` is part of the same `"\r\n"` terminator. -/
def pySplitlinesGo : Bool → Str → Str → List Str
  | _, [], cur => if cur.isEmpty then [] else [cur.reverse]
  | sawCR, c :: rest, cur =>
    if sawCR && c == '\n' then pySplitlinesGo false rest cur
    else if isLineTermCh c then cur.reverse :: pySplitlinesGo (c == '\r') rest []
    else pySplitlinesGo false rest (c :: cur)

/-- Python `str.splitlines()`: a trailing terminator produces no empty final
line, and `"\r\n"` counts as a single terminator. -/
def pySplitlines (cs : Str) : List Str := pySplitlinesGo false cs []

/-- Python `re` semantics for a pattern anchored `^...$` used with
`pattern.match(s)`: `$` also matches just before a single trailing newline. -/
def pyDollarMatch (core : Str → Bool) (s : Str) : Bool :=
  core s || (s.getLast? == some '\n' && core s.dropLast)

/-- Code-point lexicographic order on strings (Python `str` comparison,
as used by `list.sort(key=...)`). -/
def strLe : Str → Str → Bool
  | [], _ => true
  | _ :: _, [] => false
  | a :: as, b :: bs =>
    if a.toNat < b.toNat then true
    else if b.toNat < a.toNat then false
    else strLe as bs

/-! ### `_types.py`: version and identity grammar -/

/-- `[0-9]+-g[a-f0-9]+`, anchored at both ends: the common tail of
`1.0.0-5-gabcdef` style patterns after the leading dash. -/
def numDashGHex (cs : Str) : Bool :=
  let n := cs.takeWhile isDigitCh
  let r := cs.dropWhile isDigitCh
  !n.isEmpty &&
    (match r with
     | c1 :: c2 :: h => c1 == '-' && c2 == 'g' && !h.isEmpty && h.all isHexLowerCh
     | _ => false)

/-- After `-rc`: `[0-9]+` to the end, or `[0-9]+` followed by `-N-g<hex>`. -/
def rcTail (cs : Str) : Bool :=
  let n := cs.takeWhile isDigitCh
  let r := cs.dropWhile isDigitCh
  !n.isEmpty &&
    (match r with
     | [] => true
     | c :: r2 => c == '-' && numDashGHex r2)

/-- What may follow `D.D.D` in an orderable version: nothing, `-rcN`,
`-N-g<hex>`, or `-rcN-N-g<hex>`.  The `rc` alternatives and the numeric
alternative are disjoint (a digit is not `r`), so this single matcher is
equivalent to the alternation of the four anchored patterns. -/
def orderableSuffix (cs : Str) : Bool :=
  match cs with
  | [] => true
  | c :: rest =>
    c == '-' &&
      (match rest with
       | r1 :: r2 :: rest2 =>
         if r1 == 'r' && r2 == 'c' then rcTail rest2 else numDashGHex rest
       | _ => numDashGHex rest)

/-- The union of the four `ORDERABLE_VERSION_PATTERNS`, anchored at both
ends with no trailing-newline allowance. -/
def orderableCore (cs : Str) : Bool :=
  let a := cs.takeWhile isDigitCh
  let r1 := cs.dropWhile isDigitCh
  !a.isEmpty &&
    (match r1 with
     | c :: r2 =>
       c == '.' &&
         (let b := r2.takeWhile isDigitCh
          let r3 := r2.dropWhile isDigitCh
          !b.isEmpty &&
            (match r3 with
             | c2 :: r4 =>
               c2 == '.' &&
                 (let d := r4.takeWhile isDigitCh
                  let r5 := r4.dropWhile isDigitCh
                  !d.isEmpty && orderableSuffix r5)
             | [] => false))
     | [] => false)

/-- `is_orderable_version` from `_types.py`: `any(p.match(version) for p in
ORDERABLE_VERSION_PATTERNS)`. -/
def is_orderable_version (version : Str) : Bool := pyDollarMatch orderableCore version

/-- Body of `PRODUCT_GROUP_PATTERN`, `^[a-z0-9.-]+$`, without the `$` newline
allowance. -/
def groupCore (cs : Str) : Bool := !cs.isEmpty && cs.all isGroupCh

/-- Body of `PRODUCT_NAME_PATTERN`, `^[a-z][a-z0-9.-]*$`, without the `$`
newline allowance. -/
def nameCore : Str → Bool
  | [] => false
  | c :: rest => isLowerCh c && rest.all isGroupCh

def is_valid_product_group (group : Str) : Bool := pyDollarMatch groupCore group

def is_valid_product_name (name : Str) : Bool := pyDollarMatch nameCore name

structure ProductDependency where
  product_group : Str
  product_name : Str
  minimum_version : Str
  maximum_version : Option Str := none
  recommended_version : Option Str := none
  optional : Bool := false
deriving DecidableEq

def ProductDependency.product_id (d : ProductDependency) : Str :=
  d.product_group ++ [':'] ++ d.product_name

/-! ### `_lock_file.py`: lock file codec -/

structure LockEntry where
  product_group : Str
  product_name : Str
  minimum_version : Str
  maximum_version : Str
  optional : Bool := false
deriving DecidableEq

def LockEntry.product_id (e : LockEntry) : Str :=
  e.product_group ++ [':'] ++ e.product_name

def LockEntry.to_line (e : LockEntry) : Str :=
  e.product_id ++ str " (" ++ e.minimum_version ++ str ", " ++ e.maximum_version ++ [')'] ++
    (if e.optional then str " optional" else [])

/-- `resolve_default_max_version` from `_validation.py`:
`minimum_version.split(".")[0] + ".x.x"`. -/
def resolve_default_max_version (minimum_version : Str) : Str :=
  minimum_version.takeWhile (fun c => !(c == '.')) ++ str ".x.x"

def _LOCK_HEADER : Str :=
  str "# product-dependencies.lock\n# Run pants sls-lock to regenerate this file\n"

/-- The sort order used by `entries.sort(key=lambda e: e.product_id)`. -/
def lockLe (a b : LockEntry) : Prop := strLe a.product_id b.product_id = true

instance : DecidableRel lockLe := fun a b => by unfold lockLe; infer_instance

def toLockEntry (dep : ProductDependency) : LockEntry :=
  { product_group := dep.product_group
    product_name := dep.product_name
    minimum_version := dep.minimum_version
    maximum_version :=
      match dep.maximum_version with
      | none => resolve_default_max_version dep.minimum_version
      | some m => m
    optional := dep.optional }

/-- Python `"\n".join(...)`. -/
def intercalateNL : List Str → Str
  | [] => []
  | [l] => l
  | l :: ls => l ++ '\n' :: intercalateNL ls

/-- `generate_lock_file` from `_lock_file.py`: build a `LockEntry` per
dependency (`toLockEntry`), stable-sort by `product_id`
(`List.insertionSort` with `lockLe` is extensionally Python's stable
`list.sort(key=...)`), then `"\n".join([_LOCK_HEADER] + lines) + "\n"`.
Note that `_LOCK_HEADER` itself ends in a newline, the join inserts another,
and one more trailing newline is appended at the end. -/
def generate_lock_file (dependencies : List ProductDependency) : Str :=
  intercalateNL (_LOCK_HEADER ::
    (List.insertionSort lockLe (dependencies.map toLockEntry)).map LockEntry.to_line) ++
    ['\n']

/-- The `(?:\s+(?P<optional>optional))?\s*$` tail of `_LOCK_LINE_PATTERN`:
returns the `optional` flag, or `none` on mismatch.  The literal `optional`
starts with a non-space character, so the backtracking regex is equivalent to
this deterministic reading. -/
def parseTailOpt (r : Str) : Option Bool :=
  if r.all isPySpaceCh then some false
  else
    match r with
    | [] => none
    | c :: _ =>
      if isPySpaceCh c then
        let r1 := r.dropWhile isPySpaceCh
        if r1.take 8 == str "optional" && (r1.drop 8).all isPySpaceCh then some true
        else none
      else none

/-- `_LOCK_LINE_PATTERN.match` on an already-stripped line, returning the
`LockEntry` built by `parse_lock_file`.  The character classes before each
literal separator are disjoint from it, so maximal munch is equivalent to the
backtracking regex; for `,\s*([^)]+)\)` the parsed group is stripped anyway,
so taking everything up to the first `)` and stripping is equivalent. -/
def parseLockLine (line : Str) : Option LockEntry :=
  let g := line.takeWhile isGroupCh
  let r0 := line.dropWhile isGroupCh
  if g.isEmpty then none
  else
    match r0 with
    | c0 :: r1 =>
      if c0 == ':' then
        match r1 with
        | c1 :: _ =>
          if isLowerCh c1 then
            let n := r1.takeWhile isGroupCh
            let r2 := r1.dropWhile isGroupCh
            match r2 with
            | c2 :: _ =>
              if isPySpaceCh c2 then
                let r3 := r2.dropWhile isPySpaceCh
                match r3 with
                | c3 :: r4 =>
                  if c3 == '(' then
                    let minC := r4.takeWhile (fun c => !(c == ','))
                    let r5 := r4.dropWhile (fun c => !(c == ','))
                    if minC.isEmpty then none
                    else
                      match r5 with
                      | _ :: r6 =>
                        let maxC := r6.takeWhile (fun c => !(c == ')'))
                        let r7 := r6.dropWhile (fun c => !(c == ')'))
                        if maxC.isEmpty then none
                        else
                          match r7 with
                          | _ :: r8 =>
                            match parseTailOpt r8 with
                            | some opt =>
                              some { product_group := g, product_name := n,
                                     minimum_version := pyStrip minC,
                                     maximum_version := pyStrip maxC,
                                     optional := opt }
                            | none => none
                          | [] => none
                      | [] => none
                  else none
                | [] => none
              else none
            | [] => none
          else none
        | [] => none
      else none
    | [] => none

def mkParseErr (n : Nat) (line : Str) : Str :=
  str "Invalid lock file line " ++ (Nat.repr n).data ++ str ": " ++ line

/-- The loop body of `parse_lock_file`: 1-based line numbers, blank and `#`
lines skipped, first bad line aborts with an error. -/
def parseLockLinesGo : Nat → List Str → Except Str (List LockEntry)
  | _, [] => .ok []
  | n, line :: rest =>
    let stripped := pyStrip line
    if stripped.isEmpty then parseLockLinesGo (n + 1) rest
    else if stripped.head? == some '#' then parseLockLinesGo (n + 1) rest
    else
      match parseLockLine stripped with
      | none => .error (mkParseErr n line)
      | some e =>
        match parseLockLinesGo (n + 1) rest with
        | .ok es => .ok (e :: es)
        | .error msg => .error msg

/-- `parse_lock_file` from `_lock_file.py` (the raised `ValueError` is
modelled as the error branch). -/
def parse_lock_file (content : Str) : Except Str (List LockEntry) :=
  parseLockLinesGo 1 (pySplitlines content)

instance {ε α : Type} [DecidableEq ε] [DecidableEq α] : DecidableEq (Except ε α)
  | .ok a, .ok b =>
    if h : a = b then .isTrue (by rw [h]) else .isFalse (by intro hc; cases hc; exact h rfl)
  | .error a, .error b =>
    if h : a = b then .isTrue (by rw [h]) else .isFalse (by intro hc; cases hc; exact h rfl)
  | .ok _, .error _ => .isFalse (by intro hc; cases hc)
  | .error _, .ok _ => .isFalse (by intro hc; cases hc)

/-! ### `_validation.py`: validation engine -/

/-- Python `repr` of a string, specialised to strings without quotes or
escapes (the only place the result matters to the claims is never inspected). -/
def pyRepr (s : Str) : Str := '\x27' :: (s ++ ['\x27'])

/-- Python truthiness of an optional string: `None` and `""` are falsy. -/
def truthyOpt : Option Str → Bool
  | none => false
  | some s => !s.isEmpty

/-- The final check of `validate_dependency`:
`if dep.recommended_version and not is_orderable_version(...)`. -/
def recommendedCheck (o : Option Str) : Option Str :=
  match o with
  | some r =>
    if !r.isEmpty && !is_orderable_version r then
      some (str "Invalid recommended version: " ++ pyRepr r)
    else none
  | none => none

/-- `validate_dependency` from `_validation.py`.  A raised
`ManifestValidationError` is modelled as `some message` (the `field` tag is
the constant `"product-dependencies"` in every branch and is omitted). -/
def validate_dependency (dep : ProductDependency) : Option Str :=
  if !is_valid_product_group dep.product_group then
    some (str "Invalid product group in dependency: " ++ pyRepr dep.product_group)
  else if !is_valid_product_name dep.product_name then
    some (str "Invalid product name in dependency: " ++ pyRepr dep.product_name)
  else if !is_orderable_version dep.minimum_version then
    some (str "Invalid minimum version: " ++ pyRepr dep.minimum_version)
  else if truthyOpt dep.maximum_version && dep.maximum_version == some dep.minimum_version then
    some (str "minimum_version must not equal maximum_version for " ++ dep.product_id ++
      str ". This creates a lockstep upgrade requirement.")
  else
    recommendedCheck dep.recommended_version

/-- `dict.get` on the replication mapping (keys of a Python dict are unique;
the mapping is modelled as an association list in insertion order). -/
def lookupRepl (replication : List (Str × Int)) (k : Str) : Option Int :=
  match replication.find? (fun kv => kv.1 == k) with
  | some kv => some kv.2
  | none => none

def intToStr (i : Int) : Str := (toString i).data

/-- `validate_replication` from `_validation.py`: first violated check
raises. -/
def validate_replication (replication : List (Str × Int)) : Option Str :=
  let desired := lookupRepl replication (str "desired")
  let min_val := lookupRepl replication (str "min")
  let max_val := lookupRepl replication (str "max")
  match min_val, desired with
  | some a, some d =>
    if a > d then
      some (str "replication.min (" ++ intToStr a ++ str ") must be <= replication.desired (" ++
        intToStr d ++ str ")")
    else
      match desired, max_val with
      | some d2, some b =>
        if d2 > b then
          some (str "replication.desired (" ++ intToStr d2 ++
            str ") must be <= replication.max (" ++ intToStr b ++ str ")")
        else
          match min_val, max_val with
          | some a2, some b2 =>
            if a2 > b2 then
              some (str "replication.min (" ++ intToStr a2 ++
                str ") must be <= replication.max (" ++ intToStr b2 ++ str ")")
            else none
          | _, _ => none
      | _, _ =>
        match min_val, max_val with
        | some a2, some b2 =>
          if a2 > b2 then
            some (str "replication.min (" ++ intToStr a2 ++
              str ") must be <= replication.max (" ++ intToStr b2 ++ str ")")
          else none
        | _, _ => none
  | _, _ =>
    match desired, max_val with
    | some d2, some b =>
      if d2 > b then
        some (str "replication.desired (" ++ intToStr d2 ++
          str ") must be <= replication.max (" ++ intToStr b ++ str ")")
      else
        match min_val, max_val with
        | some a2, some b2 =>
          if a2 > b2 then
            some (str "replication.min (" ++ intToStr a2 ++
              str ") must be <= replication.max (" ++ intToStr b2 ++ str ")")
          else none
        | _, _ => none
    | _, _ =>
      match min_val, max_val with
      | some a2, some b2 =>
        if a2 > b2 then
          some (str "replication.min (" ++ intToStr a2 ++
            str ") must be <= replication.max (" ++ intToStr b2 ++ str ")")
        else none
      | _, _ => none

structure ProductIncompatibility where
  product_group : Str
  product_name : Str
  version_range : Str
  reason : Str
deriving DecidableEq

/-- `ManifestData` from `_types.py` restricted to the fields that
`validate_manifest_data` reads; the remaining fields (display name,
labels, endpoints, artifacts, extensions, ...) are never consulted by any
function embedded here and carry `Any`-typed payloads, so they are omitted. -/
structure ManifestData where
  manifest_version : Str
  product_type : Str
  product_group : Str
  product_name : Str
  product_version : Str
  replication : List (Str × Int) := []
  product_dependencies : List ProductDependency := []
  product_incompatibilities : List ProductIncompatibility := []
deriving DecidableEq

def validTypesRepr : Str := str "\x7b\x27helm.v1\x27, \x27asset.v1\x27, \x27service.v1\x27\x7d"

def validTypes : List Str := [str "helm.v1", str "asset.v1", str "service.v1"]

/-- The dependency loop of `validate_manifest_data`: `seen` accumulates the
product ids already visited. -/
def depErrorsGo : List Str → List ProductDependency → List Str
  | _, [] => []
  | seen, dep :: rest =>
    let dep_id := dep.product_id
    ((if seen.contains dep_id then [str "Duplicate product dependency: " ++ dep_id] else []) ++
     (if !is_orderable_version dep.minimum_version then
        [str "Dependency " ++ dep_id ++ str ": invalid minimum_version " ++
          pyRepr dep.minimum_version]
      else []) ++
     (if dep.maximum_version == some dep.minimum_version then
        [str "Dependency " ++ dep_id ++ str ": minimum_version == maximum_version (" ++
          dep.minimum_version ++ str "). This creates lockstep upgrade coupling."]
      else []) ++
     (match dep.recommended_version with
      | some r =>
        if !r.isEmpty && !is_orderable_version r then
          [str "Dependency " ++ dep_id ++ str ": invalid recommended_version " ++ pyRepr r]
        else []
      | none => [])) ++
    depErrorsGo (dep_id :: seen) rest

def incompatWarnings : List ProductIncompatibility → List Str
  | [] => []
  | inc :: rest =>
    (if inc.reason.isEmpty then
      [str "Incompatibility with " ++ inc.product_group ++ [':'] ++ inc.product_name ++
        str " has no reason specified"]
     else []) ++ incompatWarnings rest

/-- `validate_manifest_data` from `_validation.py`, returning
`(errors, warnings)` in the order the source appends them.  Note: the
replication block only checks `min > desired` and `desired > max`; unlike
`validate_replication` it has no `min > max` check. -/
def validate_manifest_data (data : ManifestData) : List Str × List Str :=
  let reqErrors :=
    (if data.product_group.isEmpty then [str "product-group is required"] else []) ++
    (if data.product_name.isEmpty then [str "product-name is required"] else []) ++
    (if data.product_version.isEmpty then [str "product-version is required"] else []) ++
    (if data.product_type.isEmpty then [str "product-type is required"] else [])
  let verErrors :=
    if !data.product_version.isEmpty && !is_orderable_version data.product_version then
      [str "product-version " ++ pyRepr data.product_version ++
        str " is not a valid SLS orderable version"]
    else []
  let typeErrors :=
    if !data.product_type.isEmpty && !validTypes.contains data.product_type then
      [str "product-type " ++ pyRepr data.product_type ++ str " not in " ++ validTypesRepr]
    else []
  let replErrors :=
    if !data.replication.isEmpty then
      let desired := lookupRepl data.replication (str "desired")
      let min_val := lookupRepl data.replication (str "min")
      let max_val := lookupRepl data.replication (str "max")
      (match min_val, desired with
       | some a, some d =>
         if a > d then
           [str "replication.min (" ++ intToStr a ++ str ") > replication.desired (" ++
             intToStr d ++ str ")"]
         else []
       | _, _ => []) ++
      (match desired, max_val with
       | some d, some b =>
         if d > b then
           [str "replication.desired (" ++ intToStr d ++ str ") > replication.max (" ++
             intToStr b ++ str ")"]
         else []
       | _, _ => [])
    else []
  (reqErrors ++ verErrors ++ typeErrors ++ replErrors ++
    depErrorsGo [] data.product_dependencies,
   incompatWarnings data.product_incompatibilities)

/-! ### `_check_script.py`: check-script generator -/

inductive CheckMode where
  | CHECK_ARGS
  | CHECK_COMMAND
  | CHECK_SCRIPT
  | NONE
deriving DecidableEq

structure CheckScriptResult where
  mode : CheckMode
  check_script_content : Option Str := none
  source_path : Option Str := none
deriving DecidableEq

/-- `_CHECK_ARGS_SCRIPT.format(service_name=...)`: the template with `{{`
and `}}` collapsed to single braces and the service name substituted. -/
def checkArgsScript (service_name : Str) : Str :=
  str "#!/bin/bash\n#\n# Health check script for " ++ service_name ++
  str " (check_args mode).\n# Delegates to python-service-launcher in --check mode, which reads\n# service/bin/launcher-check.yml.\n\nset -euo pipefail\n\nSCRIPT_DIR=\"$(cd \"$(dirname \"$\x7bBASH_SOURCE[0]\x7d\")\" && pwd)\"\nMONITORING_DIR=\"$(dirname \"$SCRIPT_DIR\")\"\nSERVICE_DIR=\"$(dirname \"$MONITORING_DIR\")\"\nDIST_ROOT=\"$(dirname \"$SERVICE_DIR\")\"\n\n# Detect platform and architecture\ndetect_launcher() \x7b\n    local os arch\n    os=\"$(uname -s | tr \x27[:upper:]\x27 \x27[:lower:]\x27)\"\n    arch=\"$(uname -m)\"\n\n    case \"$arch\" in\n        x86_64|amd64) arch=\"amd64\" ;;\n        aarch64|arm64) arch=\"arm64\" ;;\n        *)\n            echo \"CRITICAL: Unsupported architecture: $arch\" >&2\n            exit 2\n            ;;\n    esac\n\n    local launcher=\"$\x7bDIST_ROOT\x7d/service/bin/$\x7bos\x7d-$\x7barch\x7d/python-service-launcher\"\n    if [[ ! -x \"$launcher\" ]]; then\n        echo \"CRITICAL: Launcher binary not found: $launcher\" >&2\n        exit 2\n    fi\n    echo \"$launcher\"\n\x7d\n\nLAUNCHER=\"$(detect_launcher)\"\n\ncd \"$DIST_ROOT\"\nexec \"$LAUNCHER\" --check --service-name \"" ++
  service_name ++ str "\"\n"

/-- `_CHECK_COMMAND_SCRIPT.format(service_name=..., check_command=...)`. -/
def checkCommandScript (service_name check_command : Str) : Str :=
  str "#!/bin/bash\n#\n# Health check script for " ++ service_name ++
  str " (check_command mode).\n# Runs a custom health check command.\n\nset -euo pipefail\n\nSCRIPT_DIR=\"$(cd \"$(dirname \"$\x7bBASH_SOURCE[0]\x7d\")\" && pwd)\"\nMONITORING_DIR=\"$(dirname \"$SCRIPT_DIR\")\"\nSERVICE_DIR=\"$(dirname \"$MONITORING_DIR\")\"\nDIST_ROOT=\"$(dirname \"$SERVICE_DIR\")\"\n\ncd \"$DIST_ROOT\"\nexec " ++
  check_command ++ ['\n']

/-- Python `.lstrip("\n")`. -/
def pyLStripNL (cs : Str) : Str := cs.dropWhile (fun c => c == '\n')

/-- `generate_check_script` from `_check_script.py` (the raised `ValueError`
is modelled as the error branch). -/
def generate_check_script (service_name : Str) (check_args : Option (List Str))
    (check_command : Option Str) (check_script_path : Option Str) :
    Except Str CheckScriptResult :=
  let set_count :=
    (if check_args.isSome then 1 else 0) + (if check_command.isSome then 1 else 0) +
      (if check_script_path.isSome then 1 else 0)
  if 1 < set_count then
    .error (str "Only one of check_args, check_command, or check_script_path may be set.")
  else
    match check_args with
    | some _ =>
      .ok { mode := CheckMode.CHECK_ARGS,
            check_script_content := some (pyLStripNL (checkArgsScript service_name)) }
    | none =>
      match check_command with
      | some cmd =>
        .ok { mode := CheckMode.CHECK_COMMAND,
              check_script_content := some (pyLStripNL (checkCommandScript service_name cmd)) }
      | none =>
        match check_script_path with
        | some p => .ok { mode := CheckMode.CHECK_SCRIPT, source_path := some p }
        | none => .ok { mode := CheckMode.NONE }

/-- Python `pat in s` (substring containment). -/
def isSubstrOf (pat : Str) : Str → Bool
  | [] => pat.isEmpty
  | s@(_ :: rest) => pat.isPrefixOf s || isSubstrOf pat rest

def toLowerCh (c : Char) : Char := if isUpperCh c then Char.ofNat (c.toNat + 32) else c

def toLowerStr (s : Str) : Str := s.map toLowerCh

/-! ### `_hooks.py`: hook path validation -/

def HOOK_PHASES : List Str :=
  [str "pre-configure", str "configure", str "pre-startup", str "startup",
   str "post-startup", str "pre-shutdown", str "shutdown"]

/-- `_HOOK_PATH_RE`, `^(?P<phase>[a-z-]+)\.d/(?P<name>[a-zA-Z0-9_.-]+\.sh)$`,
without the `$` newline allowance; returns the `phase` group on a match.
Since `.`, `s`, `h` all belong to the name class, the name part matches
exactly when the remainder is all name-class characters, ends with `.sh`,
and is longer than `.sh` itself. -/
def hookKeyCore (k : Str) : Option Str :=
  let phase := k.takeWhile isPhaseCh
  let r0 := k.dropWhile isPhaseCh
  if phase.isEmpty then none
  else
    match r0 with
    | c1 :: c2 :: c3 :: rest =>
      if c1 == '.' && c2 == 'd' && c3 == '/' then
        if rest.all isHookNameCh && (str ".sh").isSuffixOf rest && !(rest == str ".sh") then
          some phase
        else none
      else none
    | _ => none

/-- `_HOOK_PATH_RE.match(key)` with the Python `$` trailing-newline
allowance. -/
def pyHookMatch (k : Str) : Option Str :=
  match hookKeyCore k with
  | some ph => some ph
  | none => if k.getLast? == some '\n' then hookKeyCore k.dropLast else none

def joinCommaSpace : List Str → Str
  | [] => []
  | [l] => l
  | l :: ls => l ++ str ", " ++ joinCommaSpace ls

def invalidHookPathMsg (key : Str) : Str :=
  str "Invalid hook path \x27" ++ key ++
    str "\x27: must match \x27<phase>.d/<name>.sh\x27 (e.g., \x27pre-startup.d/10-migrate.sh\x27)"

def unknownHookPhaseMsg (key phase : Str) : Str :=
  str "Unknown hook phase \x27" ++ phase ++ str "\x27 in \x27" ++ key ++
    str "\x27. Valid phases: " ++ joinCommaSpace HOOK_PHASES

/-- The per-key body of `validate_hook_paths`. -/
def checkHookKey (key : Str) : Except Str Unit :=
  match pyHookMatch key with
  | none => .error (invalidHookPathMsg key)
  | some phase =>
    if HOOK_PHASES.contains phase then .ok () else .error (unknownHookPhaseMsg key phase)

/-- `validate_hook_paths` from `_hooks.py`: the hook mapping's keys in
insertion order (a raised `ValueError` is modelled as the error branch). -/
def validate_hook_paths : List Str → Except Str Unit
  | [] => .ok ()
  | k :: ks =>
    match checkHookKey k with
    | .error e => .error e
    | .ok _ => validate_hook_paths ks

/-! ### `_layout.py` and `_asset_layout.py`: layout assembly -/

structure LayoutFile where
  relative_path : Str
  content : Option Str := none
  source_path : Option Str := none
  executable : Bool := false
deriving DecidableEq

structure LayoutDirectory where
  relative_path : Str
deriving DecidableEq

structure SlsLayout where
  dist_name : Str
  files : List LayoutFile
  directories : List LayoutDirectory
deriving DecidableEq

/-- `build_layout` from `_layout.py`: the imperative `add_file` /
`add_directory` calls are modelled as list concatenation in source order.
`hook_scripts` is the user hook mapping in insertion order (`None` and the
empty dict behave identically in the source and are both modelled as `[]`). -/
def build_layout (product_name product_version manifest_yaml launcher_static_yaml
    init_script : Str)
    (check_script_content check_script_source launcher_check_yaml lock_file_content
     hook_entrypoint_content hook_library_content hook_startup_content : Option Str)
    (hook_scripts : List (Str × Str)) : SlsLayout :=
  { dist_name := product_name ++ ['-'] ++ product_version
    files :=
      [{ relative_path := str "deployment/manifest.yml", content := some manifest_yaml }] ++
      (match lock_file_content with
       | some c =>
         [{ relative_path := str "deployment/product-dependencies.lock", content := some c }]
       | none => []) ++
      [{ relative_path := str "service/bin/init.sh", content := some init_script,
         executable := true },
       { relative_path := str "service/bin/launcher-static.yml",
         content := some launcher_static_yaml }] ++
      (match launcher_check_yaml with
       | some c => [{ relative_path := str "service/bin/launcher-check.yml", content := some c }]
       | none => []) ++
      (match check_script_content, check_script_source with
       | some c, _ =>
         [{ relative_path := str "service/monitoring/bin/check.sh", content := some c,
            executable := true }]
       | none, some s =>
         [{ relative_path := str "service/monitoring/bin/check.sh", source_path := some s,
            executable := true }]
       | none, none => []) ++
      (match hook_entrypoint_content with
       | some c =>
         [{ relative_path := str "service/bin/entrypoint.sh", content := some c,
            executable := true }]
       | none => []) ++
      (match hook_library_content with
       | some c => [{ relative_path := str "service/lib/hooks.sh", content := some c }]
       | none => []) ++
      (match hook_startup_content with
       | some c =>
         [{ relative_path := str "hooks/startup.d/00-main.sh", content := some c,
            executable := true }]
       | none => []) ++
      hook_scripts.map (fun kv =>
        { relative_path := str "hooks/" ++ kv.1, source_path := some kv.2, executable := true })
    directories :=
      [⟨str "var/data/tmp"⟩, ⟨str "var/log"⟩, ⟨str "var/run"⟩] ++
      (match hook_entrypoint_content with
       | some _ =>
         HOOK_PHASES.map (fun phase => ⟨str "hooks/" ++ phase ++ str ".d"⟩) ++
         [⟨str "var/state"⟩, ⟨str "var/metrics"⟩]
       | none => []) }

structure AssetMapping where
  source_path : Str
  dest_path : Str
deriving DecidableEq

/-- `build_asset_layout` from `_asset_layout.py` (`None` and the empty list
of mappings behave identically and are both modelled as `[]`). -/
def build_asset_layout (product_name product_version manifest_yaml : Str)
    (lock_file_content : Option Str) (asset_mappings : List AssetMapping) : SlsLayout :=
  { dist_name := product_name ++ ['-'] ++ product_version
    files :=
      [{ relative_path := str "deployment/manifest.yml", content := some manifest_yaml }] ++
      (match lock_file_content with
       | some c =>
         [{ relative_path := str "deployment/product-dependencies.lock", content := some c }]
       | none => []) ++
      asset_mappings.map (fun m =>
        { relative_path := str "asset/" ++ m.dest_path, source_path := some m.source_path })
    directories := [⟨str "asset"⟩] }

/-! ### Specification-side definitions

These state, following the specification's words, the grammars and shape
predicates the claims quantify over; the theorems below relate them to the
executable functions translated from the source. -/

def Digits1 (cs : Str) : Prop := cs ≠ [] ∧ ∀ c ∈ cs, isDigitCh c = true

def HexLower1 (cs : Str) : Prop := cs ≠ [] ∧ ∀ c ∈ cs, isHexLowerCh c = true

/-- What may follow `D.D.D` per the specification's four grammars. -/
def OrderableSuffixSpec (s : Str) : Prop :=
  s = [] ∨
  (∃ n, Digits1 n ∧ s = '-' :: 'r' :: 'c' :: n) ∨
  (∃ n h, Digits1 n ∧ HexLower1 h ∧ s = '-' :: (n ++ '-' :: 'g' :: h)) ∨
  (∃ n m h, Digits1 n ∧ Digits1 m ∧ HexLower1 h ∧
    s = '-' :: 'r' :: 'c' :: (n ++ '-' :: (m ++ '-' :: 'g' :: h)))

/-- The orderable version language as the specification words it: exactly
`D.D.D`, `D.D.D-rcN`, `D.D.D-N-g<hex>` or `D.D.D-rcN-N-g<hex>`. -/
def OrderableGrammar (s : Str) : Prop :=
  ∃ a b d suf, Digits1 a ∧ Digits1 b ∧ Digits1 d ∧ OrderableSuffixSpec suf ∧
    s = a ++ '.' :: (b ++ '.' :: (d ++ suf))

/-- "ends in exactly one newline". -/
def endsInExactlyOneNewline (cs : Str) : Prop :=
  cs.getLast? = some '\n' ∧ cs.dropLast.getLast? ≠ some '\n'

/-- Conditions on an explicit `maximum_version` under which a generated lock
line parses back to the same value. -/
def SafeMax (m : Str) : Prop :=
  m ≠ [] ∧ (∀ c ∈ m, (c == ')') = false ∧ isLineTermCh c = false) ∧ pyStrip m = m

def GoodEntry (e : LockEntry) : Prop :=
  groupCore e.product_group = true ∧ nameCore e.product_name = true ∧
  orderableCore e.minimum_version = true ∧ SafeMax e.maximum_version

/-- Executable version of `SafeMax`. -/
def safeMaxB (m : Str) : Bool :=
  !m.isEmpty && m.all (fun c => !(c == ')') && !isLineTermCh c) && (pyStrip m == m)

/-- A dependency whose identity fields match their grammars exactly (no
trailing-newline allowance) and whose explicit maximum version, if any, is
lock-line safe. -/
def strictDep (d : ProductDependency) : Bool :=
  groupCore d.product_group && nameCore d.product_name &&
    orderableCore d.minimum_version &&
    (match d.maximum_version with
     | some m => safeMaxB m
     | none => true)

/-- The hook key grammar as the specification words it:
`<phase>.d/<name>.sh` with a non-empty `[a-zA-Z0-9_.-]+` basename. -/
def HookKeyPhaseGrammar (k ph : Str) : Prop :=
  ∃ nm, ph ≠ [] ∧ (∀ c ∈ ph, isPhaseCh c = true) ∧ nm ≠ [] ∧
    (∀ c ∈ nm, isHookNameCh c = true) ∧ k = ph ++ '.' :: 'd' :: '/' :: (nm ++ str ".sh")

/-- The keys `validate_hook_paths` actually accepts: the grammar with a known
phase, either exactly or after removing one trailing newline. -/
def HookKeyAcceptedSpec (k : Str) : Prop :=
  (∃ ph, ph ∈ HOOK_PHASES ∧ HookKeyPhaseGrammar k ph) ∨
  (∃ ph t, ph ∈ HOOK_PHASES ∧ HookKeyPhaseGrammar t ph ∧ k = t ++ ['\n'])

def optMsgHasLockstep (o : Option Str) : Bool :=
  match o with
  | some m => isSubstrOf (str "lockstep") m
  | none => false

def errHasOnlyOneCI (r : Except Str CheckScriptResult) : Bool :=
  match r with
  | .error e => isSubstrOf (str "only one") (toLowerStr e)
  | .ok _ => false

def exceptOk {ε α : Type} : Except ε α → Bool
  | .ok _ => true
  | .error _ => false

def pathsOfFiles (layout : SlsLayout) : List Str :=
  layout.files.map LayoutFile.relative_path

def pathsOfDirs (layout : SlsLayout) : List Str :=
  layout.directories.map LayoutDirectory.relative_path

/-- `HeadNot p cs`: `cs` is empty or its first character refutes `p`. -/
def HeadNot (p : Char → Bool) : Str → Prop
  | [] => True
  | c :: _ => p c = false

/-- The error message `validate_manifest_data` emits for `min > desired`. -/
def replMinDesiredMsg (a d : Int) : Str :=
  str "replication.min (" ++ intToStr a ++ str ") > replication.desired (" ++
    intToStr d ++ str ")"

/-- The error message `validate_manifest_data` emits for `desired > max`. -/
def replDesiredMaxMsg (d b : Int) : Str :=
  str "replication.desired (" ++ intToStr d ++ str ") > replication.max (" ++
    intToStr b ++ str ")"

/-- An otherwise-valid manifest whose replication has `min = 5`, `max = 2`
and no `desired`. -/
def C4manifest : ManifestData :=
  { manifest_version := str "1.0", product_type := str "service.v1",
    product_group := str "com.example", product_name := str "svc",
    product_version := str "1.0.0",
    replication := [(str "min", 5), (str "max", 2)],
    product_dependencies := [], product_incompatibilities := [] }

/-- An otherwise-valid manifest whose replication has `min = 5`,
`desired = 1`, `max = 9`. -/
def C4witnessManifest : ManifestData :=
  { manifest_version := str "1.0", product_type := str "service.v1",
    product_group := str "com.example", product_name := str "svc",
    product_version := str "1.0.0",
    replication := [(str "min", 5), (str "desired", 1), (str "max", 9)],
    product_dependencies := [], product_incompatibilities := [] }

/-- Two dependencies sharing a `product_id` but otherwise different. -/
def C2depA : ProductDependency :=
  { product_group := str "com.example", product_name := str "svc",
    minimum_version := str "1.0.0", maximum_version := some (str "2.x.x"),
    recommended_version := none, optional := false }

def C2depB : ProductDependency :=
  { product_group := str "com.example", product_name := str "svc",
    minimum_version := str "3.0.0", maximum_version := some (str "4.x.x"),
    recommended_version := none, optional := false }

def C2depC : ProductDependency :=
  { product_group := str "com.example", product_name := str "alpha",
    minimum_version := str "1.0.0", maximum_version := none,
    recommended_version := none, optional := false }

def C2depD : ProductDependency :=
  { product_group := str "com.example", product_name := str "beta",
    minimum_version := str "2.0.0", maximum_version := none,
    recommended_version := none, optional := false }

/-- A dependency with a valid group, a valid name and an orderable minimum
version whose explicit maximum version breaks the lock-line syntax. -/
def C1badDep : ProductDependency :=
  { product_group := str "a", product_name := str "b",
    minimum_version := str "1.0.0", maximum_version := some (str ")"),
    recommended_version := none, optional := false }

def C1dep : ProductDependency :=
  { product_group := str "com.example", product_name := str "auth-service",
    minimum_version := str "1.2.0", maximum_version := some (str "1.x.x"),
    recommended_version := none, optional := true }

/-- A dependency with no explicit maximum version (the generated lock line
carries the derived `<major>.x.x`). -/
def C1dep2 : ProductDependency :=
  { product_group := str "com.example", product_name := str "database",
    minimum_version := str "5.3.0", maximum_version := none,
    recommended_version := none, optional := false }

/-- Two asset mappings with distinct sources but the same destination. -/
def C9assetDup : List AssetMapping :=
  [{ source_path := str "files/a.txt", dest_path := str "cfg/app.yml" },
   { source_path := str "files/b.txt", dest_path := str "cfg/app.yml" }]

/-- The relative path contributed by an optional single-file block of
`build_layout`: present exactly when the option is set. -/
def optPath (o : Option Str) (p : Str) : List Str :=
  match o with
  | some _ => [p]
  | none => []

/-- The relative path contributed by the `check.sh` block of `build_layout`:
present when either the generated content or the user source is set (the
`elif` makes the two cases exclusive, with the same path). -/
def optPath2 (o1 o2 : Option Str) (p : Str) : List Str :=
  match o1, o2 with
  | some _, _ => [p]
  | none, some _ => [p]
  | none, none => []

/-! ### Character class facts -/

theorem isDigitCh_isGroupCh {c : Char} (h : isDigitCh c = true) : isGroupCh c = true := by
  simp [isGroupCh, h]

theorem isLowerCh_isGroupCh {c : Char} (h : isLowerCh c = true) : isGroupCh c = true := by
  simp [isGroupCh, h]

theorem isHexLowerCh_isGroupCh {c : Char} (h : isHexLowerCh c = true) : isGroupCh c = true := by
  simp [isHexLowerCh] at h
  rcases h with h | h
  · simp [isGroupCh, h]
  · simp [isGroupCh, isLowerCh]
    omega

theorem isGroupCh_bounds {c : Char} (h : isGroupCh c = true) :
    (97 ≤ c.toNat ∧ c.toNat ≤ 122) ∨ (48 ≤ c.toNat ∧ c.toNat ≤ 57) ∨
      c.toNat = 46 ∨ c.toNat = 45 := by
  simp [isGroupCh, isLowerCh, isDigitCh] at h
  rcases h with ((h | h) | h) | h
  · exact Or.inl h
  · exact Or.inr (Or.inl h)
  · subst h; exact Or.inr (Or.inr (Or.inl rfl))
  · subst h; exact Or.inr (Or.inr (Or.inr rfl))

theorem groupCh_not_space {c : Char} (h : isGroupCh c = true) : isPySpaceCh c = false := by
  have hb := isGroupCh_bounds h
  simp [isPySpaceCh]
  omega

theorem groupCh_not_term {c : Char} (h : isGroupCh c = true) : isLineTermCh c = false := by
  have hb := isGroupCh_bounds h
  simp [isLineTermCh]
  omega

theorem groupCh_ne_colon {c : Char} (h : isGroupCh c = true) : (c == ':') = false := by
  have hb := isGroupCh_bounds h
  simp only [beq_eq_false_iff_ne]
  intro heq
  subst heq
  exact absurd hb (by decide)

theorem groupCh_ne_comma {c : Char} (h : isGroupCh c = true) : (c == ',') = false := by
  have hb := isGroupCh_bounds h
  simp only [beq_eq_false_iff_ne]
  intro heq
  subst heq
  exact absurd hb (by decide)

theorem groupCh_ne_rparen {c : Char} (h : isGroupCh c = true) : (c == ')') = false := by
  have hb := isGroupCh_bounds h
  simp only [beq_eq_false_iff_ne]
  intro heq
  subst heq
  exact absurd hb (by decide)

theorem groupCh_ne_hash {c : Char} (h : isGroupCh c = true) : c ≠ '#' := by
  have hb := isGroupCh_bounds h
  intro heq
  subst heq
  exact absurd hb (by decide)

/-! ### takeWhile / dropWhile facts -/

theorem takeWhile_dropWhile_append {p : Char → Bool} :
    ∀ (a rest : Str), (∀ c ∈ a, p c = true) → HeadNot p rest →
      (a ++ rest).takeWhile p = a ∧ (a ++ rest).dropWhile p = rest := by
  intro a
  induction a with
  | nil =>
    intro rest _ hr
    cases rest with
    | nil => exact ⟨rfl, rfl⟩
    | cons c cs =>
      have hc : p c = false := hr
      simp [List.takeWhile_cons, List.dropWhile_cons, hc]
  | cons x a' ih =>
    intro rest hall hr
    have hx : p x = true := hall x (List.mem_cons_self x a')
    have hrec := ih rest (fun c hc => hall c (List.mem_cons_of_mem x hc)) hr
    simp [List.takeWhile_cons, List.dropWhile_cons, hx, hrec.1, hrec.2]

theorem dropWhile_headNot {p : Char → Bool} : ∀ cs : Str, HeadNot p cs → cs.dropWhile p = cs := by
  intro cs h
  cases cs with
  | nil => rfl
  | cons c rest =>
    have hc : p c = false := h
    simp [List.dropWhile_cons, hc]

/-! ### pyStrip facts -/

theorem pyStrip_id {cs : Str} (h1 : HeadNot isPySpaceCh cs)
    (h2 : HeadNot isPySpaceCh cs.reverse) : pyStrip cs = cs := by
  unfold pyStrip dropWhileEnd
  rw [dropWhile_headNot _ h1, dropWhile_headNot _ h2, List.reverse_reverse]

theorem pyStrip_id_of_all {cs : Str} (h : ∀ c ∈ cs, isPySpaceCh c = false) :
    pyStrip cs = cs := by
  apply pyStrip_id
  · cases cs with
    | nil => trivial
    | cons c rest => exact h c (List.mem_cons_self c rest)
  · cases hrev : cs.reverse with
    | nil => trivial
    | cons c rest =>
      have hc : c ∈ cs := by
        rw [← List.mem_reverse, hrev]
        exact List.mem_cons_self c rest
      exact h c hc

theorem pyStrip_cons_space {c : Char} {cs : Str} (hc : isPySpaceCh c = true) :
    pyStrip (c :: cs) = pyStrip cs := by
  unfold pyStrip
  simp [List.dropWhile_cons, hc]

/-! ### Code-point order facts -/

theorem charToNat_inj {a b : Char} (h : a.toNat = b.toNat) : a = b :=
  Char.eq_of_val_eq (UInt32.ext h)

theorem strLe_total : ∀ a b : Str, strLe a b = true ∨ strLe b a = true := by
  intro a
  induction a with
  | nil => intro b; exact Or.inl rfl
  | cons x as ih =>
    intro b
    cases b with
    | nil => exact Or.inr rfl
    | cons y bs =>
      by_cases h1 : x.toNat < y.toNat
      · left; simp [strLe, h1]
      · by_cases h2 : y.toNat < x.toNat
        · right; simp [strLe, h2, h1]
        · rcases ih bs with h | h
          · left; simp [strLe, h1, h2, h]
          · right; simp [strLe, h1, h2, h]

theorem strLe_trans : ∀ a b c : Str, strLe a b = true → strLe b c = true → strLe a c = true := by
  intro a
  induction a with
  | nil => intro b c _ _; rfl
  | cons x as ih =>
    intro b c hab hbc
    cases b with
    | nil => simp [strLe] at hab
    | cons y bs =>
      cases c with
      | nil => simp [strLe] at hbc
      | cons z cs =>
        simp only [strLe] at hab hbc ⊢
        by_cases hxy : x.toNat < y.toNat
        · by_cases hyz : y.toNat < z.toNat
          · simp [show x.toNat < z.toNat by omega]
          · by_cases hzy : z.toNat < y.toNat
            · simp [hyz, hzy] at hbc
            · simp [show x.toNat < z.toNat by omega]
        · by_cases hyx : y.toNat < x.toNat
          · simp [hxy, hyx] at hab
          · by_cases hyz : y.toNat < z.toNat
            · simp [show x.toNat < z.toNat by omega]
            · by_cases hzy : z.toNat < y.toNat
              · simp [hyz, hzy] at hbc
              · have hxz : ¬ x.toNat < z.toNat := by omega
                have hzx : ¬ z.toNat < x.toNat := by omega
                simp [hxy, hyx] at hab
                simp [hyz, hzy] at hbc
                simp [hxz, hzx]
                exact ih bs cs hab hbc

theorem strLe_antisymm : ∀ a b : Str, strLe a b = true → strLe b a = true → a = b := by
  intro a
  induction a with
  | nil =>
    intro b _ hba
    cases b with
    | nil => rfl
    | cons y bs => simp [strLe] at hba
  | cons x as ih =>
    intro b hab hba
    cases b with
    | nil => simp [strLe] at hab
    | cons y bs =>
      simp only [strLe] at hab hba
      by_cases hxy : x.toNat < y.toNat
      · have h1 : ¬ y.toNat < x.toNat := by omega
        simp [h1, hxy] at hba
      · by_cases hyx : y.toNat < x.toNat
        · simp [hxy, hyx] at hab
        · have hx : x = y := charToNat_inj (by omega)
          simp [hxy, hyx] at hab hba
          rw [hx, ih bs hab hba]

/-! ### Python splitlines facts -/

theorem pySplitGo_cons_nonterm {c : Char} (hc : isLineTermCh c = false) (f : Bool)
    (rest cur : Str) :
    pySplitlinesGo f (c :: rest) cur = pySplitlinesGo false rest (c :: cur) := by
  have hnl : (c == '\n') = false := by
    simp only [beq_eq_false_iff_ne]
    intro heq
    subst heq
    exact absurd hc (by decide)
  simp [pySplitlinesGo, hnl, hc]

theorem pySplitGo_newline (rest cur : Str) :
    pySplitlinesGo false ('\n' :: rest) cur = cur.reverse :: pySplitlinesGo false rest [] := by
  have h1 : isLineTermCh '\n' = true := by decide
  have h2 : ('\n' == '\r') = false := by decide
  simp [pySplitlinesGo, h1, h2]

theorem pySplitGo_line : ∀ (a rest cur : Str), (∀ c ∈ a, isLineTermCh c = false) →
    pySplitlinesGo false (a ++ '\n' :: rest) cur =
      (cur.reverse ++ a) :: pySplitlinesGo false rest [] := by
  intro a
  induction a with
  | nil =>
    intro rest cur _
    simpa using pySplitGo_newline rest cur
  | cons x a' ih =>
    intro rest cur hall
    have hx := hall x (List.mem_cons_self x a')
    rw [List.cons_append, pySplitGo_cons_nonterm hx,
      ih rest (x :: cur) (fun c hc => hall c (List.mem_cons_of_mem x hc))]
    simp

theorem intercalateNL_cons_cons (l l2 : Str) (ls : List Str) :
    intercalateNL (l :: l2 :: ls) = l ++ '\n' :: intercalateNL (l2 :: ls) := rfl

theorem pySplitlines_intercalate : ∀ ls : List Str, ls ≠ [] →
    (∀ l ∈ ls, ∀ c ∈ l, isLineTermCh c = false) →
    pySplitlines (intercalateNL ls ++ ['\n']) = ls := by
  intro ls
  induction ls with
  | nil => intro h; exact absurd rfl h
  | cons l ls' ih =>
    intro _ hall
    cases ls' with
    | nil =>
      show pySplitlinesGo false (intercalateNL [l] ++ ['\n']) [] = [l]
      have hl := hall l (List.mem_cons_self l [])
      have := pySplitGo_line l [] [] hl
      simpa [intercalateNL] using this
    | cons l2 ls'' =>
      show pySplitlinesGo false (intercalateNL (l :: l2 :: ls'') ++ ['\n']) [] = l :: l2 :: ls''
      rw [intercalateNL_cons_cons, List.append_assoc, List.cons_append,
        pySplitGo_line l _ [] (hall l (List.mem_cons_self l _))]
      have hrest : pySplitlinesGo false (intercalateNL (l2 :: ls'') ++ ['\n']) [] =
          l2 :: ls'' :=
        ih (by simp) (fun l3 hl3 => hall l3 (List.mem_cons_of_mem l hl3))
      simp [hrest]

/-! ### Orderable version grammar: matcher vs. specification -/

theorem headNot_cons {p : Char → Bool} {c : Char} {cs : Str} (h : p c = false) :
    HeadNot p (c :: cs) := h

theorem digit_ne_r {c : Char} (h : isDigitCh c = true) : (c == 'r') = false := by
  simp [isDigitCh] at h
  simp only [beq_eq_false_iff_ne]
  intro heq
  subst heq
  exact absurd h (by decide)

theorem digit_not_dot {c : Char} (h : isDigitCh c = true) : (c == '.') = false := by
  simp [isDigitCh] at h
  simp only [beq_eq_false_iff_ne]
  intro heq
  subst heq
  exact absurd h (by decide)

theorem numDashGHex_iff (s : Str) :
    numDashGHex s = true ↔ ∃ n h, Digits1 n ∧ HexLower1 h ∧ s = n ++ '-' :: 'g' :: h := by
  constructor
  · intro hm
    unfold numDashGHex at hm
    have hsplit : s.takeWhile isDigitCh ++ s.dropWhile isDigitCh = s :=
      List.takeWhile_append_dropWhile isDigitCh s
    rcases Bool.and_eq_true_iff.mp hm with ⟨hne, hmatch⟩
    rcases hr : s.dropWhile isDigitCh with _ | ⟨c1, _ | ⟨c2, h'⟩⟩ <;> rw [hr] at hmatch
    · simp at hmatch
    · simp at hmatch
    · simp only [Bool.and_eq_true_iff, beq_iff_eq] at hmatch
      obtain ⟨⟨⟨hc1, hc2⟩, hne'⟩, hall⟩ := hmatch
      subst hc1
      subst hc2
      refine ⟨s.takeWhile isDigitCh, h', ⟨?_, fun c hc => List.mem_takeWhile_imp hc⟩,
        ⟨?_, fun c hc => ?_⟩, ?_⟩
      · intro hnil
        rw [hnil] at hne
        exact absurd hne (by decide)
      · simpa [List.isEmpty_iff] using hne'
      · have := List.all_eq_true.mp hall c hc
        simpa using this
      · rw [← hr]
        exact hsplit.symm
  · rintro ⟨n, h, ⟨hn1, hn2⟩, ⟨hh1, hh2⟩, rfl⟩
    have hsplit := takeWhile_dropWhile_append n ('-' :: 'g' :: h) hn2
      (headNot_cons (by decide))
    unfold numDashGHex
    rw [hsplit.1, hsplit.2]
    simp [List.isEmpty_iff, hn1, hh1, List.all_eq_true]
    exact fun c hc => hh2 c hc

theorem rcTail_iff (s : Str) :
    rcTail s = true ↔
      (Digits1 s ∨
        ∃ n m h, Digits1 n ∧ Digits1 m ∧ HexLower1 h ∧
          s = n ++ '-' :: (m ++ '-' :: 'g' :: h)) := by
  constructor
  · intro hm
    unfold rcTail at hm
    have hsplit : s.takeWhile isDigitCh ++ s.dropWhile isDigitCh = s :=
      List.takeWhile_append_dropWhile isDigitCh s
    rcases Bool.and_eq_true_iff.mp hm with ⟨hne, hmatch⟩
    rcases hr : s.dropWhile isDigitCh with _ | ⟨c1, r2⟩ <;> rw [hr] at hmatch
    · left
      have hs : s = s.takeWhile isDigitCh := by
        conv_lhs => rw [← hsplit]
        rw [hr, List.append_nil]
      refine ⟨?_, ?_⟩
      · intro hnil
        rw [hnil] at hne
        exact absurd hne (by decide)
      · rw [hs]
        exact fun c hc => List.mem_takeWhile_imp hc
    · simp only [Bool.and_eq_true_iff, beq_iff_eq] at hmatch
      obtain ⟨hc1, hnum⟩ := hmatch
      subst hc1
      rcases (numDashGHex_iff r2).mp hnum with ⟨m, h, hm', hh, rfl⟩
      right
      refine ⟨s.takeWhile isDigitCh, m, h,
        ⟨?_, fun c hc => List.mem_takeWhile_imp hc⟩, hm', hh, ?_⟩
      · intro hnil
        rw [hnil] at hne
        exact absurd hne (by decide)
      · rw [← hr]
        exact hsplit.symm
  · intro hs
    rcases hs with ⟨hn1, hn2⟩ | ⟨n, m, h, hn, hm', hh, rfl⟩
    · unfold rcTail
      have hsplit := takeWhile_dropWhile_append s [] hn2 trivial
      rw [List.append_nil] at hsplit
      rw [hsplit.1, hsplit.2]
      simp [List.isEmpty_iff, hn1]
    · unfold rcTail
      have hsplit := takeWhile_dropWhile_append n ('-' :: (m ++ '-' :: 'g' :: h)) hn.2
        (headNot_cons (by decide))
      rw [hsplit.1, hsplit.2]
      simp [List.isEmpty_iff, hn.1]
      exact (numDashGHex_iff _).mpr ⟨m, h, hm', hh, rfl⟩

theorem orderableSuffix_iff (s : Str) : orderableSuffix s = true ↔ OrderableSuffixSpec s := by
  constructor
  · intro hm
    cases s with
    | nil => exact Or.inl rfl
    | cons c rest =>
      cases rest with
      | nil =>
        simp only [orderableSuffix] at hm
        rcases Bool.and_eq_true_iff.mp hm with ⟨_, hbad⟩
        exact absurd hbad (by decide)
      | cons r1 rest1 =>
        cases rest1 with
        | nil =>
          simp only [orderableSuffix] at hm
          rcases Bool.and_eq_true_iff.mp hm with ⟨_, hbad⟩
          rcases (numDashGHex_iff _).mp hbad with ⟨n, h, hn, hh, heq⟩
          have hlen := congrArg List.length heq
          have hnlen : 1 ≤ n.length := List.length_pos.mpr hn.1
          simp [List.length_append] at hlen
          omega
        | cons r2 rest2 =>
          simp only [orderableSuffix] at hm
          rcases Bool.and_eq_true_iff.mp hm with ⟨hc, hm2⟩
          have hc' : c = '-' := by simpa using hc
          subst hc'
          by_cases hrc : r1 = 'r' ∧ r2 = 'c'
          · obtain ⟨rfl, rfl⟩ := hrc
            rw [if_pos (by decide)] at hm2
            rcases (rcTail_iff rest2).mp hm2 with hd | ⟨n, m, h, hn, hm', hh, heq⟩
            · exact Or.inr (Or.inl ⟨rest2, hd, rfl⟩)
            · exact Or.inr (Or.inr (Or.inr ⟨n, m, h, hn, hm', hh, by rw [heq]⟩))
          · have hneg : ¬ ((r1 == 'r' && r2 == 'c') = true) := by
              intro hco
              rcases Bool.and_eq_true_iff.mp hco with ⟨h1, h2⟩
              exact hrc ⟨by simpa using h1, by simpa using h2⟩
            rw [if_neg hneg] at hm2
            rcases (numDashGHex_iff _).mp hm2 with ⟨n, h, hn, hh, heq⟩
            exact Or.inr (Or.inr (Or.inl ⟨n, h, hn, hh, by rw [heq]⟩))
  · intro hs
    rcases hs with rfl | ⟨n, hn, rfl⟩ | ⟨n, h, hn, hh, rfl⟩ | ⟨n, m, h, hn, hm', hh, rfl⟩
    · rfl
    · unfold orderableSuffix
      simp only [beq_self_eq_true, Bool.and_self, if_true, Bool.true_and]
      exact (rcTail_iff n).mpr (Or.inl hn)
    · obtain ⟨d, n', rfl⟩ : ∃ d n', n = d :: n' := by
        cases n with
        | nil => exact absurd rfl hn.1
        | cons d n' => exact ⟨d, n', rfl⟩
      have hd : isDigitCh d = true := hn.2 d (List.mem_cons_self d n')
      cases n' with
      | nil =>
        unfold orderableSuffix
        simp only [List.cons_append, List.nil_append, beq_self_eq_true, Bool.true_and]
        rw [digit_ne_r hd]
        simp only [Bool.false_and, Bool.false_eq_true, if_false]
        refine (numDashGHex_iff _).mpr ⟨[d], h, ⟨List.cons_ne_nil d [], ?_⟩, hh, by simp⟩
        intro c hc
        rcases List.mem_singleton.mp hc with rfl
        exact hd
      | cons d2 n'' =>
        have hd2 : isDigitCh d2 = true := hn.2 d2 (List.mem_cons_of_mem d (List.mem_cons_self d2 n''))
        unfold orderableSuffix
        simp only [List.cons_append, beq_self_eq_true, Bool.true_and]
        rw [digit_ne_r hd]
        simp only [Bool.false_and, if_false]
        refine (numDashGHex_iff _).mpr ⟨d :: d2 :: n'', h, ?_, hh, by simp⟩
        exact ⟨List.cons_ne_nil d _, hn.2⟩
    · unfold orderableSuffix
      simp only [List.cons_append, beq_self_eq_true, Bool.and_self, if_true, Bool.true_and]
      exact (rcTail_iff _).mpr (Or.inr ⟨n, m, h, hn, hm', hh, rfl⟩)

theorem ne_nil_of_not_isEmpty {l : Str} (h : (!l.isEmpty) = true) : l ≠ [] := by
  intro hnil
  rw [hnil] at h
  exact absurd h (by decide)

theorem orderableCore_iff (s : Str) : orderableCore s = true ↔ OrderableGrammar s := by
  constructor
  · intro hm
    unfold orderableCore at hm
    have hsplit1 : s.takeWhile isDigitCh ++ s.dropWhile isDigitCh = s :=
      List.takeWhile_append_dropWhile isDigitCh s
    rcases Bool.and_eq_true_iff.mp hm with ⟨hne1, hmA⟩
    clear hm
    rcases hr1 : s.dropWhile isDigitCh with _ | ⟨c1, r2⟩ <;> rw [hr1] at hmA
    · simp at hmA
    · rcases Bool.and_eq_true_iff.mp hmA with ⟨hc1, hmB⟩
      clear hmA
      have hc1' : c1 = '.' := by simpa using hc1
      subst hc1'
      have hsplit2 : r2.takeWhile isDigitCh ++ r2.dropWhile isDigitCh = r2 :=
        List.takeWhile_append_dropWhile isDigitCh r2
      rcases Bool.and_eq_true_iff.mp hmB with ⟨hne2, hmC⟩
      clear hmB
      rcases hr2 : r2.dropWhile isDigitCh with _ | ⟨c2, r4⟩ <;> rw [hr2] at hmC
      · simp at hmC
      · rcases Bool.and_eq_true_iff.mp hmC with ⟨hc2, hmD⟩
        clear hmC
        have hc2' : c2 = '.' := by simpa using hc2
        subst hc2'
        rcases Bool.and_eq_true_iff.mp hmD with ⟨hne3, hsuf⟩
        have h_s : s = s.takeWhile isDigitCh ++ '.' :: r2 := by
          conv_lhs => rw [← hsplit1]
          rw [hr1]
        have h_r2 : r2 = r2.takeWhile isDigitCh ++ '.' :: r4 := by
          conv_lhs => rw [← hsplit2]
          rw [hr2]
        have h_r4 : r4 = r4.takeWhile isDigitCh ++ r4.dropWhile isDigitCh :=
          (List.takeWhile_append_dropWhile isDigitCh r4).symm
        refine ⟨s.takeWhile isDigitCh, r2.takeWhile isDigitCh, r4.takeWhile isDigitCh,
          r4.dropWhile isDigitCh,
          ⟨ne_nil_of_not_isEmpty hne1, fun c hc => List.mem_takeWhile_imp hc⟩,
          ⟨ne_nil_of_not_isEmpty hne2, fun c hc => List.mem_takeWhile_imp hc⟩,
          ⟨ne_nil_of_not_isEmpty hne3, fun c hc => List.mem_takeWhile_imp hc⟩,
          (orderableSuffix_iff _).mp hsuf, ?_⟩
        conv_lhs => rw [h_s]
        refine congrArg (fun t => List.takeWhile isDigitCh s ++ '.' :: t) ?_
        conv_lhs => rw [h_r2]
        exact congrArg (fun t => List.takeWhile isDigitCh r2 ++ '.' :: t) h_r4
  · rintro ⟨a, b, d, suf, ⟨ha1, ha2⟩, ⟨hb1, hb2⟩, ⟨hd1, hd2⟩, hsuf, rfl⟩
    have hsufHead : HeadNot isDigitCh suf := by
      rcases hsuf with rfl | ⟨n, _, rfl⟩ | ⟨n, h, _, _, rfl⟩ | ⟨n, m, h, _, _, _, rfl⟩
      · trivial
      all_goals exact headNot_cons (by decide)
    have hs1 := takeWhile_dropWhile_append a ('.' :: (b ++ '.' :: (d ++ suf))) ha2
      (headNot_cons (by decide))
    have hs2 := takeWhile_dropWhile_append b ('.' :: (d ++ suf)) hb2
      (headNot_cons (by decide))
    have hs3 := takeWhile_dropWhile_append d suf hd2 hsufHead
    unfold orderableCore
    rw [hs1.1, hs1.2]
    simp only [List.isEmpty_iff, hs2.1, hs2.2, hs3.1, hs3.2,
      beq_self_eq_true, Bool.true_and, Bool.not_eq_true', Bool.and_eq_true_iff]
    exact ⟨by simp [List.isEmpty_iff, ha1], by simp [List.isEmpty_iff, hb1],
      by simp [List.isEmpty_iff, hd1], (orderableSuffix_iff suf).mpr hsuf⟩

theorem suffixSpec_all_groupCh {s : Str} (hsp : OrderableSuffixSpec s) :
    ∀ c ∈ s, isGroupCh c = true := by
  rcases hsp with rfl | ⟨n, hn, rfl⟩ | ⟨n, h, hn, hh, rfl⟩ | ⟨n, m, h, hn, hm', hh, rfl⟩
  · intro c hc
    simp at hc
  · intro c hc
    rcases List.mem_cons.mp hc with rfl | hc
    · decide
    rcases List.mem_cons.mp hc with rfl | hc
    · decide
    rcases List.mem_cons.mp hc with rfl | hc
    · decide
    exact isDigitCh_isGroupCh (hn.2 c hc)
  · intro c hc
    rcases List.mem_cons.mp hc with rfl | hc
    · decide
    rcases List.mem_append.mp hc with hc | hc
    · exact isDigitCh_isGroupCh (hn.2 c hc)
    rcases List.mem_cons.mp hc with rfl | hc
    · decide
    rcases List.mem_cons.mp hc with rfl | hc
    · decide
    exact isHexLowerCh_isGroupCh (hh.2 c hc)
  · intro c hc
    rcases List.mem_cons.mp hc with rfl | hc
    · decide
    rcases List.mem_cons.mp hc with rfl | hc
    · decide
    rcases List.mem_cons.mp hc with rfl | hc
    · decide
    rcases List.mem_append.mp hc with hc | hc
    · exact isDigitCh_isGroupCh (hn.2 c hc)
    rcases List.mem_cons.mp hc with rfl | hc
    · decide
    rcases List.mem_append.mp hc with hc | hc
    · exact isDigitCh_isGroupCh (hm'.2 c hc)
    rcases List.mem_cons.mp hc with rfl | hc
    · decide
    rcases List.mem_cons.mp hc with rfl | hc
    · decide
    exact isHexLowerCh_isGroupCh (hh.2 c hc)

theorem grammar_all_groupCh {s : Str} (hg : OrderableGrammar s) :
    ∀ c ∈ s, isGroupCh c = true := by
  rcases hg with ⟨a, b, d, suf, ha, hb, hd, hsuf, rfl⟩
  intro c hc
  rcases List.mem_append.mp hc with hc | hc
  · exact isDigitCh_isGroupCh (ha.2 c hc)
  rcases List.mem_cons.mp hc with rfl | hc
  · decide
  rcases List.mem_append.mp hc with hc | hc
  · exact isDigitCh_isGroupCh (hb.2 c hc)
  rcases List.mem_cons.mp hc with rfl | hc
  · decide
  rcases List.mem_append.mp hc with hc | hc
  · exact isDigitCh_isGroupCh (hd.2 c hc)
  exact suffixSpec_all_groupCh hsuf c hc

theorem grammar_ne_nil {s : Str} (hg : OrderableGrammar s) : s ≠ [] := by
  rcases hg with ⟨a, b, d, suf, ha, _, _, _, rfl⟩
  cases a with
  | nil => exact absurd rfl ha.1
  | cons x xs => simp

theorem orderableCore_all_groupCh {s : Str} (h : orderableCore s = true) :
    ∀ c ∈ s, isGroupCh c = true :=
  grammar_all_groupCh ((orderableCore_iff s).mp h)

theorem orderableCore_ne_nil {s : Str} (h : orderableCore s = true) : s ≠ [] :=
  grammar_ne_nil ((orderableCore_iff s).mp h)

/-- The full characterization of `is_orderable_version`: the four grammars,
with the Python `$` trailing-newline allowance. -/
theorem is_orderable_iff_grammar (s : Str) :
    is_orderable_version s = true ↔
      (OrderableGrammar s ∨ ∃ t, OrderableGrammar t ∧ s = t ++ ['\n']) := by
  unfold is_orderable_version pyDollarMatch
  rw [Bool.or_eq_true_iff]
  constructor
  · intro h
    rcases h with h | h
    · exact Or.inl ((orderableCore_iff s).mp h)
    · rcases Bool.and_eq_true_iff.mp h with ⟨hlast, hcore⟩
      have hlast' : s.getLast? = some '\n' := by simpa using hlast
      have hne : s ≠ [] := by
        intro hnil
        rw [hnil] at hlast'
        simp at hlast'
      refine Or.inr ⟨s.dropLast, (orderableCore_iff _).mp hcore, ?_⟩
      have hgl : s.getLast hne = '\n' := by
        have := List.getLast?_eq_getLast s hne
        rw [hlast'] at this
        exact (Option.some.inj this).symm
      conv_lhs => rw [← List.dropLast_append_getLast hne]
      rw [hgl]
  · intro h
    rcases h with h | ⟨t, ht, rfl⟩
    · exact Or.inl ((orderableCore_iff s).mpr h)
    · right
      rw [Bool.and_eq_true_iff]
      constructor
      · simp [List.getLast?_concat]
      · rw [List.dropLast_concat]
        exact (orderableCore_iff t).mpr ht

/-! ### Supporting lemmas for the dependency validator and check script -/

theorem is_orderable_ne_nil {s : Str} (h : is_orderable_version s = true) : s ≠ [] := by
  unfold is_orderable_version pyDollarMatch at h
  rcases Bool.or_eq_true_iff.mp h with h | h
  · exact orderableCore_ne_nil h
  · rcases Bool.and_eq_true_iff.mp h with ⟨hlast, _⟩
    intro hnil
    rw [hnil] at hlast
    simp at hlast

theorem isSubstrOf_append_left (pat : Str) : ∀ s t : Str,
    isSubstrOf pat t = true → isSubstrOf pat (s ++ t) = true := by
  intro s
  induction s with
  | nil => intro t h; simpa using h
  | cons c s' ih =>
    intro t h
    rw [List.cons_append]
    unfold isSubstrOf
    rw [ih t h]
    simp

/-! ### Claim theorems -/

/-- C3 (counterexample): `"1.0.0\n"` is accepted by `is_orderable_version`
even though it matches none of the four grammars exactly, because the Python
`$` anchor also matches just before a trailing newline; the claim's
"no extra leading/trailing characters" is therefore false as stated. -/
theorem C3_counterexample :
    is_orderable_version (str "1.0.0\n") = true ∧
      orderableCore (str "1.0.0\n") = false ∧ ¬ OrderableGrammar (str "1.0.0\n") := by
  refine ⟨by decide, by decide, ?_⟩
  intro hg
  exact absurd ((orderableCore_iff _).mpr hg) (by decide)

/-- C3 (amended): `is_orderable_version s` is true iff `s` matches one of the
four grammars `D.D.D`, `D.D.D-rcN`, `D.D.D-N-g<hex>`, `D.D.D-rcN-N-g<hex>`
exactly, or `s` is such a string followed by one trailing newline (Python `$`
semantics); the spec's concrete examples all behave as stated. -/
theorem C3_theorem :
    (∀ s : Str, is_orderable_version s = true ↔
      (OrderableGrammar s ∨ ∃ t, OrderableGrammar t ∧ s = t ++ ['\n'])) ∧
    is_orderable_version (str "1.0.0") = true ∧
    is_orderable_version (str "1.0.0-rc1") = true ∧
    is_orderable_version (str "1.0.0-5-gabcdef") = true ∧
    is_orderable_version (str "1.0.0-rc1-5-gabcdef") = true ∧
    is_orderable_version (str "v1.0.0") = false ∧
    is_orderable_version (str "1.0") = false ∧
    is_orderable_version (str "1.0.0-beta1") = false ∧
    is_orderable_version (str "1.0.0-0-gGGGGGGG") = false :=
  ⟨is_orderable_iff_grammar, by decide, by decide, by decide, by decide, by decide,
    by decide, by decide, by decide⟩

/-- C5 (confirmed): for a dependency with valid group, valid name and
orderable minimum version (and an orderable recommended version when
present), `validate_dependency` raises an error whose message contains
"lockstep" exactly when `maximum_version` is set and equal to
`minimum_version`, and raises nothing otherwise. -/
theorem C5_theorem (dep : ProductDependency)
    (hg : is_valid_product_group dep.product_group = true)
    (hn : is_valid_product_name dep.product_name = true)
    (hv : is_orderable_version dep.minimum_version = true)
    (hr : ∀ r, dep.recommended_version = some r → is_orderable_version r = true) :
    (optMsgHasLockstep (validate_dependency dep) = true ↔
      dep.maximum_version = some dep.minimum_version) ∧
    (validate_dependency dep = none ↔ dep.maximum_version ≠ some dep.minimum_version) := by
  have hvne : dep.minimum_version ≠ [] := is_orderable_ne_nil hv
  have hrecNone : recommendedCheck dep.recommended_version = none := by
    cases ho : dep.recommended_version with
    | none => rfl
    | some r =>
      have := hr r ho
      simp [recommendedCheck, this]
  unfold validate_dependency
  rw [hg, hn, hv]
  simp only [Bool.not_true, Bool.false_eq_true, if_false]
  cases hmax : dep.maximum_version with
  | none =>
    have hcond : ¬ ((truthyOpt (none : Option Str) &&
        ((none : Option Str) == some dep.minimum_version)) = true) := by
      simp [truthyOpt]
    rw [if_neg hcond, hrecNone]
    constructor
    · constructor
      · intro h
        exact absurd h (by decide)
      · intro h
        exact Option.noConfusion h
    · constructor
      · intro _
        exact fun h => Option.noConfusion h
      · intro _
        rfl
  | some m =>
    by_cases hem : m = dep.minimum_version
    · subst hem
      have hcond : (truthyOpt (some dep.minimum_version) &&
          ((some dep.minimum_version : Option Str) == some dep.minimum_version)) = true := by
        simp [truthyOpt, List.isEmpty_iff, hvne]
      rw [if_pos hcond]
      constructor
      · constructor
        · intro _
          rfl
        · intro _
          unfold optMsgHasLockstep
          exact isSubstrOf_append_left _ _ _ (by decide)
      · constructor
        · intro h
          exact Option.noConfusion h
        · intro h
          exact absurd rfl h
    · have hcond : ¬ ((truthyOpt (some m) &&
          ((some m : Option Str) == some dep.minimum_version)) = true) := by
        simp [hem]
      rw [if_neg hcond, hrecNone]
      constructor
      · constructor
        · intro h
          exact absurd h (by decide)
        · intro h
          exact absurd (Option.some.inj h) hem
      · constructor
        · intro _
          intro h
          exact hem (Option.some.inj h)
        · intro _
          rfl

/-- C5 (witness): a concrete lockstep dependency. -/
theorem C5_witness :
    (optMsgHasLockstep (validate_dependency
        { product_group := str "com.example", product_name := str "svc",
          minimum_version := str "1.0.0", maximum_version := some (str "1.0.0"),
          recommended_version := none, optional := false }) = true ↔
      ({ product_group := str "com.example", product_name := str "svc",
         minimum_version := str "1.0.0", maximum_version := some (str "1.0.0"),
         recommended_version := none, optional := false } :
            ProductDependency).maximum_version = some (str "1.0.0")) ∧
    (validate_dependency
        { product_group := str "com.example", product_name := str "svc",
          minimum_version := str "1.0.0", maximum_version := some (str "1.0.0"),
          recommended_version := none, optional := false } = none ↔
      ({ product_group := str "com.example", product_name := str "svc",
         minimum_version := str "1.0.0", maximum_version := some (str "1.0.0"),
         recommended_version := none, optional := false } :
            ProductDependency).maximum_version ≠ some (str "1.0.0")) :=
  C5_theorem _ (by decide) (by decide) (by decide) (fun r h => by cases h)

/-- C6 (confirmed): when more than one of the three check inputs is set,
`generate_check_script` fails with a message containing "only one"
(case-insensitively); with none set it returns a NONE-tagged result with no
content and no source reference. -/
theorem C6_theorem (service_name : Str) (check_args : Option (List Str))
    (check_command check_script_path : Option Str) :
    (1 < (if check_args.isSome then 1 else 0) + (if check_command.isSome then 1 else 0) +
        (if check_script_path.isSome then 1 else 0) →
      errHasOnlyOneCI
        (generate_check_script service_name check_args check_command check_script_path) =
        true) ∧
    generate_check_script service_name none none none =
      .ok { mode := CheckMode.NONE, check_script_content := none, source_path := none } := by
  constructor
  · intro h
    unfold generate_check_script
    rw [if_pos h]
    decide
  · rfl

/-- C6 (witness): two inputs set at once. -/
theorem C6_witness :
    errHasOnlyOneCI
      (generate_check_script (str "svc") (some []) (some (str "true")) none) = true :=
  (C6_theorem (str "svc") (some []) (some (str "true")) none).1 (by decide)

/-- C10 (confirmed): "set" means "not None": an empty `check_args` tuple
still selects CHECK_ARGS mode and produces non-empty generated script
content; emptiness of the argument sequence is never checked. -/
theorem C10_theorem (service_name : Str) :
    generate_check_script service_name (some []) none none =
      .ok { mode := CheckMode.CHECK_ARGS,
            check_script_content := some (pyLStripNL (checkArgsScript service_name)),
            source_path := none } ∧
    pyLStripNL (checkArgsScript service_name) ≠ [] := by
  constructor
  · rfl
  · unfold checkArgsScript pyLStripNL
    rw [show (str "#!/bin/bash\n#\n# Health check script for ") =
        '#' :: str "!/bin/bash\n#\n# Health check script for " from rfl]
    simp [List.dropWhile_cons]

/-- C8 (confirmed): with no optional inputs the service layout is exactly the
three runtime directories and three files in the fixed order, and the
minimal asset layout is exactly one file and one directory. -/
theorem C8_theorem (pn pv my lsy ins : Str) :
    build_layout pn pv my lsy ins none none none none none none none [] =
      { dist_name := pn ++ ['-'] ++ pv,
        files := [⟨str "deployment/manifest.yml", some my, none, false⟩,
                  ⟨str "service/bin/init.sh", some ins, none, true⟩,
                  ⟨str "service/bin/launcher-static.yml", some lsy, none, false⟩],
        directories := [⟨str "var/data/tmp"⟩, ⟨str "var/log"⟩, ⟨str "var/run"⟩] } ∧
    build_asset_layout pn pv my none [] =
      { dist_name := pn ++ ['-'] ++ pv,
        files := [⟨str "deployment/manifest.yml", some my, none, false⟩],
        directories := [⟨str "asset"⟩] } :=
  ⟨rfl, rfl⟩

theorem lookupRepl_ne_nil {r : List (Str × Int)} {k : Str} {v : Int}
    (h : lookupRepl r k = some v) : r ≠ [] := by
  intro hnil
  rw [hnil] at h
  simp [lookupRepl] at h

/-- C4 (counterexample): a manifest with replication `min = 5`, `max = 2` and
no `desired` — both operands of the `min <= max` inequality present and
violated — produces an empty error list from `validate_manifest_data`. -/
theorem C4_counterexample :
    C4manifest.replication ≠ [] ∧
    lookupRepl C4manifest.replication (str "min") = some 5 ∧
    lookupRepl C4manifest.replication (str "max") = some 2 ∧
    (5 : Int) > 2 ∧
    (validate_manifest_data C4manifest).1 = [] := by
  refine ⟨by decide, by decide, by decide, by decide, by decide⟩

/-- C4 (amended): `validate_manifest_data` reports an error for `min >
desired` and for `desired > max` when both operands are present, but —
unlike `validate_replication` — performs no `min > max` check: the manifest
with replication `{min: 5, max: 2}` and no `desired` yields an empty error
list. -/
theorem C4_theorem :
    (∀ (m : ManifestData) (a d : Int),
      lookupRepl m.replication (str "min") = some a →
      lookupRepl m.replication (str "desired") = some d →
      a > d → replMinDesiredMsg a d ∈ (validate_manifest_data m).1) ∧
    (∀ (m : ManifestData) (d b : Int),
      lookupRepl m.replication (str "desired") = some d →
      lookupRepl m.replication (str "max") = some b →
      d > b → replDesiredMaxMsg d b ∈ (validate_manifest_data m).1) ∧
    (validate_manifest_data C4manifest).1 = [] := by
  refine ⟨?_, ?_, by decide⟩
  · intro m a d hmin hdes hgt
    have hne' : (!m.replication.isEmpty) = true := by
      simp [List.isEmpty_iff]
      exact lookupRepl_ne_nil hmin
    simp only [validate_manifest_data]
    refine List.mem_append_left _ (List.mem_append_right _ ?_)
    rw [if_pos hne', hmin, hdes]
    refine List.mem_append_left _ ?_
    show replMinDesiredMsg a d ∈ (if a > d then [replMinDesiredMsg a d] else [])
    rw [if_pos hgt]
    exact List.mem_singleton.mpr rfl
  · intro m d b hdes hmax hgt
    have hne' : (!m.replication.isEmpty) = true := by
      simp [List.isEmpty_iff]
      exact lookupRepl_ne_nil hdes
    simp only [validate_manifest_data]
    refine List.mem_append_left _ (List.mem_append_right _ ?_)
    rw [if_pos hne', hdes, hmax]
    refine List.mem_append_right _ ?_
    show replDesiredMaxMsg d b ∈ (if d > b then [replDesiredMaxMsg d b] else [])
    rw [if_pos hgt]
    exact List.mem_singleton.mpr rfl

/-- C4 (witness): with `min = 5`, `desired = 1` both present and violated the
corresponding error is reported. -/
theorem C4_witness :
    replMinDesiredMsg 5 1 ∈ (validate_manifest_data C4witnessManifest).1 :=
  C4_theorem.1 C4witnessManifest 5 1 (by decide) (by decide) (by decide)

/-! ### Stable sort facts for the lock file -/

theorem toLockEntry_product_id (d : ProductDependency) :
    (toLockEntry d).product_id = d.product_id := rfl

theorem insertionSort_eq_of_perm (l l' : List LockEntry)
    (hp : l.Perm l')
    (hids : l.Pairwise (fun a b => a.product_id ≠ b.product_id)) :
    List.insertionSort lockLe l = List.insertionSort lockLe l' := by
  haveI : IsTotal LockEntry lockLe := ⟨fun a b => strLe_total _ _⟩
  haveI : IsTrans LockEntry lockLe := ⟨fun a b c => strLe_trans _ _ _⟩
  haveI : IsAntisymm LockEntry (fun a b => lockLe a b ∧ a.product_id ≠ b.product_id) :=
    ⟨fun a b hab hba => absurd (strLe_antisymm _ _ hab.1 hba.1) hab.2⟩
  have hperm1 : (List.insertionSort lockLe l).Perm l := List.perm_insertionSort lockLe l
  have hperm2 : (List.insertionSort lockLe l').Perm l' := List.perm_insertionSort lockLe l'
  have hp2 : (List.insertionSort lockLe l).Perm (List.insertionSort lockLe l') :=
    hperm1.trans (hp.trans hperm2.symm)
  have hs1 : List.Sorted lockLe (List.insertionSort lockLe l) :=
    List.sorted_insertionSort lockLe l
  have hs2 : List.Sorted lockLe (List.insertionSort lockLe l') :=
    List.sorted_insertionSort lockLe l'
  have hsym : ∀ {x y : LockEntry},
      x.product_id ≠ y.product_id → y.product_id ≠ x.product_id :=
    fun h e => h e.symm
  have hids1 : (List.insertionSort lockLe l).Pairwise
      (fun a b => a.product_id ≠ b.product_id) :=
    (hperm1.pairwise_iff hsym).mpr hids
  have hids' : l'.Pairwise (fun a b => a.product_id ≠ b.product_id) :=
    (hp.pairwise_iff hsym).mp hids
  have hids2 : (List.insertionSort lockLe l').Pairwise
      (fun a b => a.product_id ≠ b.product_id) :=
    (hperm2.pairwise_iff hsym).mpr hids'
  exact List.eq_of_perm_of_sorted hp2 (hs1.and hids1) (hs2.and hids2)

/-- C2 (counterexample): two distinct dependencies with the same
`product_id` tie under the sort key, so the stable sort preserves input
order and permuting the input changes the output text. -/
theorem C2_counterexample :
    ([C2depA, C2depB] : List ProductDependency).Perm [C2depB, C2depA] ∧
    generate_lock_file [C2depA, C2depB] ≠ generate_lock_file [C2depB, C2depA] :=
  ⟨List.Perm.swap C2depB C2depA [], by decide⟩

/-- C2 (amended): `generate_lock_file` is order-insensitive for inputs in
which no two distinct dependencies share a `product_id` (ties under the
stable sort key are what break the claim as stated). -/
theorem C2_theorem (deps deps' : List ProductDependency)
    (hp : deps.Perm deps')
    (hids : deps.Pairwise (fun a b => a.product_id ≠ b.product_id)) :
    generate_lock_file deps = generate_lock_file deps' := by
  unfold generate_lock_file
  have hmap : (deps.map toLockEntry).Perm (deps'.map toLockEntry) := hp.map _
  have hpw : (deps.map toLockEntry).Pairwise
      (fun a b => a.product_id ≠ b.product_id) := by
    rw [List.pairwise_map]
    exact hids.imp (fun h => by
      rwa [toLockEntry_product_id, toLockEntry_product_id])
  rw [insertionSort_eq_of_perm _ _ hmap hpw]

/-- C2 (witness): with distinct product ids, permuting the input leaves the
output unchanged. -/
theorem C2_witness :
    generate_lock_file [C2depC, C2depD] = generate_lock_file [C2depD, C2depC] :=
  C2_theorem _ _ (List.Perm.swap C2depD C2depC []) (by decide)

/-! ### Hook key grammar: matcher vs. specification -/

theorem hookKeyCore_some_iff (k ph : Str) :
    hookKeyCore k = some ph ↔ HookKeyPhaseGrammar k ph := by
  constructor
  · intro hm
    unfold hookKeyCore at hm
    dsimp only [] at hm
    by_cases hpe : (k.takeWhile isPhaseCh).isEmpty = true
    · rw [if_pos hpe] at hm
      exact Option.noConfusion hm
    · rw [if_neg hpe] at hm
      have hsplit : k.takeWhile isPhaseCh ++ k.dropWhile isPhaseCh = k :=
        List.takeWhile_append_dropWhile isPhaseCh k
      rcases hr0 : k.dropWhile isPhaseCh with _ | ⟨c1, r1⟩ <;> rw [hr0] at hm
      · exact Option.noConfusion hm
      rcases r1 with _ | ⟨c2, r2⟩
      · exact Option.noConfusion hm
      rcases r2 with _ | ⟨c3, rest⟩
      · exact Option.noConfusion hm
      dsimp only [] at hm
      by_cases hsep : (c1 == '.' && c2 == 'd' && c3 == '/') = true
      · rw [if_pos hsep] at hm
        by_cases hname : (rest.all isHookNameCh && (str ".sh").isSuffixOf rest &&
            !(rest == str ".sh")) = true
        · rw [if_pos hname] at hm
          have hph := Option.some.inj hm
          have hnamePieces : rest.all isHookNameCh = true ∧
              (str ".sh").isSuffixOf rest = true ∧ (!(rest == str ".sh")) = true := by
            rcases Bool.and_eq_true_iff.mp hname with ⟨hx, hy⟩
            rcases Bool.and_eq_true_iff.mp hx with ⟨ha, hb⟩
            exact ⟨ha, hb, hy⟩
          obtain ⟨hall, hsuf, hne⟩ := hnamePieces
          have hsepPieces : c1 = '.' ∧ c2 = 'd' ∧ c3 = '/' := by
            rcases Bool.and_eq_true_iff.mp hsep with ⟨hx, hy⟩
            rcases Bool.and_eq_true_iff.mp hx with ⟨ha, hb⟩
            exact ⟨by simpa using ha, by simpa using hb, by simpa using hy⟩
          obtain ⟨rfl, rfl, rfl⟩ := hsepPieces
          rcases List.isSuffixOf_iff_suffix.mp hsuf with ⟨t, ht⟩
          refine ⟨t, ?_, ?_, ?_, ?_, ?_⟩
          · rw [← hph]
            intro hnil
            exact hpe (by rw [hnil]; rfl)
          · rw [← hph]
            exact fun c hc => List.mem_takeWhile_imp hc
          · intro hnil
            rw [hnil, List.nil_append] at ht
            rw [← ht] at hne
            simp at hne
          · intro c hc
            have hcr : c ∈ rest := by
              rw [← ht]
              exact List.mem_append_left _ hc
            exact List.all_eq_true.mp hall c hcr
          · conv_lhs => rw [← hsplit]
            rw [hr0, ← ht, hph]
        · rw [if_neg hname] at hm
          exact Option.noConfusion hm
      · rw [if_neg hsep] at hm
        exact Option.noConfusion hm
  · rintro ⟨nm, hph1, hph2, hnm1, hnm2, rfl⟩
    have hsplit := takeWhile_dropWhile_append ph ('.' :: 'd' :: '/' :: (nm ++ str ".sh")) hph2
      (headNot_cons (by decide))
    have hall : ((nm ++ str ".sh").all isHookNameCh) = true := by
      rw [List.all_eq_true]
      intro c hc
      rcases List.mem_append.mp hc with hc | hc
      · exact hnm2 c hc
      · rcases List.mem_cons.mp hc with rfl | hc
        · decide
        rcases List.mem_cons.mp hc with rfl | hc
        · decide
        rcases List.mem_cons.mp hc with rfl | hc
        · decide
        simp at hc
    have hsuf : ((str ".sh").isSuffixOf (nm ++ str ".sh")) = true :=
      List.isSuffixOf_iff_suffix.mpr ⟨nm, rfl⟩
    have hne2 : (!(nm ++ str ".sh" == str ".sh")) = true := by
      simp only [Bool.not_eq_true', beq_eq_false_iff_ne]
      intro heq
      exact hnm1 (List.append_left_eq_self.mp heq)
    unfold hookKeyCore
    dsimp only []
    rw [hsplit.1, hsplit.2]
    rw [if_neg (by simp [List.isEmpty_iff, hph1])]
    dsimp only []
    rw [if_pos (by decide), if_pos (by rw [hall, hsuf, hne2]; rfl)]

theorem grammar_getLast {k ph : Str} (hg : HookKeyPhaseGrammar k ph) :
    k.getLast? = some 'h' := by
  rcases hg with ⟨nm, _, _, _, _, rfl⟩
  rw [List.getLast?_append_of_ne_nil _ (by simp : ('.' :: 'd' :: '/' :: (nm ++ str ".sh") : Str) ≠ [])]
  have h1 : ('.' :: 'd' :: '/' :: (nm ++ str ".sh") : Str) =
      (['.', 'd', '/'] ++ nm) ++ str ".sh" := by simp
  rw [h1, List.getLast?_append_of_ne_nil _ (by decide : (str ".sh" : Str) ≠ [])]
  decide

theorem checkHookKey_ok_iff (k : Str) :
    checkHookKey k = .ok () ↔ HookKeyAcceptedSpec k := by
  constructor
  · intro hok
    unfold checkHookKey at hok
    rcases hpm : pyHookMatch k with _ | ph <;> rw [hpm] at hok
    · exact Except.noConfusion hok
    · dsimp only [] at hok
      by_cases hcont : HOOK_PHASES.contains ph = true
      · unfold pyHookMatch at hpm
        rcases hcore : hookKeyCore k with _ | ph' <;> rw [hcore] at hpm
        · by_cases hlast : (k.getLast? == some '\n') = true
          · rw [if_pos hlast] at hpm
            have hg := (hookKeyCore_some_iff _ _).mp hpm
            right
            refine ⟨ph, k.dropLast, List.mem_of_elem_eq_true hcont, hg, ?_⟩
            have hlast' : k.getLast? = some '\n' := by simpa using hlast
            have hne : k ≠ [] := by
              intro hnil
              rw [hnil] at hlast'
              simp at hlast'
            have hgl : k.getLast hne = '\n' := by
              have := List.getLast?_eq_getLast k hne
              rw [hlast'] at this
              exact (Option.some.inj this).symm
            conv_lhs => rw [← List.dropLast_append_getLast hne]
            rw [hgl]
          · rw [if_neg hlast] at hpm
            exact Option.noConfusion hpm
        · dsimp only [] at hpm
          have hpp := Option.some.inj hpm
          subst hpp
          left
          exact ⟨ph', List.mem_of_elem_eq_true hcont, (hookKeyCore_some_iff _ _).mp hcore⟩
      · rw [if_neg hcont] at hok
        exact Except.noConfusion hok
  · intro hacc
    rcases hacc with ⟨ph, hmem, hg⟩ | ⟨ph, t, hmem, hg, rfl⟩
    · have hcore : hookKeyCore k = some ph := (hookKeyCore_some_iff _ _).mpr hg
      unfold checkHookKey pyHookMatch
      rw [hcore]
      dsimp only []
      rw [if_pos (List.elem_eq_true_of_mem hmem)]
    · have hcoreT : hookKeyCore t = some ph := (hookKeyCore_some_iff _ _).mpr hg
      have hcoreK : hookKeyCore (t ++ ['\n']) = none := by
        rcases hck : hookKeyCore (t ++ ['\n']) with _ | ph2
        · rfl
        · have hg2 := (hookKeyCore_some_iff _ _).mp hck
          have hgl := grammar_getLast hg2
          rw [List.getLast?_concat] at hgl
          exact absurd (Option.some.inj hgl) (by decide)
      unfold checkHookKey pyHookMatch
      rw [hcoreK]
      dsimp only []
      rw [if_pos (by simp [List.getLast?_concat] :
        (((t ++ ['\n'] : Str)).getLast? == some '\n') = true)]
      rw [List.dropLast_concat, hcoreT]
      dsimp only []
      rw [if_pos (List.elem_eq_true_of_mem hmem)]

theorem validate_hook_paths_ok_iff (keys : List Str) :
    validate_hook_paths keys = .ok () ↔ ∀ k ∈ keys, checkHookKey k = .ok () := by
  induction keys with
  | nil => simp [validate_hook_paths]
  | cons k ks ih =>
    unfold validate_hook_paths
    rcases hck : checkHookKey k with e | u
    · dsimp only []
      constructor
      · intro h
        exact Except.noConfusion h
      · intro hall
        have hk := hall k (List.mem_cons_self k ks)
        rw [hck] at hk
        exact Except.noConfusion hk
    · cases u
      dsimp only []
      rw [ih]
      constructor
      · intro hall k' hk'
        rcases List.mem_cons.mp hk' with rfl | hk'
        · exact hck
        · exact hall k' hk'
      · intro hall k' hk'
        exact hall k' (List.mem_cons_of_mem _ hk')

/-- C7 (counterexample): `validate_hook_paths` accepts the key
`"startup.d/a.sh\n"`, which does not match the claimed grammar
`<phase>.d/<name>.sh` for any phase — Python's `$` also matches just before
the trailing newline, so the claimed "if and only if" is false. -/
theorem C7_counterexample :
    validate_hook_paths [str "startup.d/a.sh\n"] = .ok () ∧
    ¬ ∃ ph, ph ∈ HOOK_PHASES ∧ HookKeyPhaseGrammar (str "startup.d/a.sh\n") ph := by
  constructor
  · decide
  · rintro ⟨ph, _, hg⟩
    have h3 := (hookKeyCore_some_iff _ _).mpr hg
    have h2 : hookKeyCore (str "startup.d/a.sh\n") = none := by decide
    rw [h2] at h3
    exact Option.noConfusion h3

/-- C7 (amended): `validate_hook_paths` succeeds iff every key — exactly, or
after removing one trailing newline (Python `$` semantics) — matches
`<phase>.d/<name>.sh` with a known phase; a malformed key fails with the
message naming the key and the expected grammar, a well-formed key with an
unknown phase fails with the message naming the phase and listing the valid
phases, and the empty mapping succeeds trivially. -/
theorem C7_theorem :
    validate_hook_paths [] = .ok () ∧
    (∀ keys : List Str, validate_hook_paths keys = .ok () ↔
      ∀ k ∈ keys, HookKeyAcceptedSpec k) ∧
    (∀ k : Str, pyHookMatch k = none →
      checkHookKey k = .error (invalidHookPathMsg k)) ∧
    (∀ k ph : Str, pyHookMatch k = some ph → HOOK_PHASES.contains ph = false →
      checkHookKey k = .error (unknownHookPhaseMsg k ph)) := by
  refine ⟨rfl, ?_, ?_, ?_⟩
  · intro keys
    rw [validate_hook_paths_ok_iff]
    constructor
    · intro h k hk
      exact (checkHookKey_ok_iff k).mp (h k hk)
    · intro h k hk
      exact (checkHookKey_ok_iff k).mpr (h k hk)
  · intro k h
    unfold checkHookKey
    rw [h]
  · intro k ph h hcont
    unfold checkHookKey
    rw [h]
    dsimp only []
    rw [if_neg (by
      intro hc
      rw [hcont] at hc
      exact Bool.false_ne_true hc)]

/-- C7 (witness): an unknown phase is rejected with the phase-listing
message. -/
theorem C7_witness :
    checkHookKey (str "invalid-phase.d/10-test.sh") =
      .error (unknownHookPhaseMsg (str "invalid-phase.d/10-test.sh")
        (str "invalid-phase")) :=
  C7_theorem.2.2.2 _ _ (by decide) (by decide)

/-! ### Lock line round trip -/

theorem to_line_decomp (e : LockEntry) :
    e.to_line = e.product_group ++ ':' :: (e.product_name ++ ' ' :: '(' ::
      (e.minimum_version ++ ',' :: ' ' :: (e.maximum_version ++ ')' ::
        (if e.optional then str " optional" else [])))) := by
  unfold LockEntry.to_line LockEntry.product_id
  rw [show (str " (" : Str) = [' ', '('] from rfl,
    show (str ", " : Str) = [',', ' '] from rfl]
  simp [List.append_assoc]

theorem groupCore_facts {g : Str} (h : groupCore g = true) :
    g ≠ [] ∧ ∀ c ∈ g, isGroupCh c = true := by
  rcases Bool.and_eq_true_iff.mp h with ⟨h1, h2⟩
  exact ⟨by simpa [List.isEmpty_iff] using h1, fun c hc => List.all_eq_true.mp h2 c hc⟩

theorem nameCore_facts {n : Str} (h : nameCore n = true) :
    ∃ c0 nr, n = c0 :: nr ∧ isLowerCh c0 = true ∧ ∀ c ∈ n, isGroupCh c = true := by
  rcases hne : n with _ | ⟨c0, nr⟩
  · rw [hne] at h
    exact absurd h (by decide)
  · rw [hne] at h
    unfold nameCore at h
    rcases Bool.and_eq_true_iff.mp h with ⟨hlow, hall⟩
    refine ⟨c0, nr, rfl, hlow, ?_⟩
    intro c hc
    rcases List.mem_cons.mp hc with rfl | hc
    · exact isLowerCh_isGroupCh hlow
    · exact List.all_eq_true.mp hall c hc

theorem parseTailOpt_flag (b : Bool) :
    parseTailOpt (if b then str " optional" else []) = some b := by
  cases b <;> decide

theorem parseLockLine_toLine {e : LockEntry} (he : GoodEntry e) :
    parseLockLine e.to_line = some e := by
  obtain ⟨hgc, hnc, hmc, hxne, hxsafe, hxstrip⟩ :
      groupCore e.product_group = true ∧ nameCore e.product_name = true ∧
        orderableCore e.minimum_version = true ∧ e.maximum_version ≠ [] ∧
        (∀ c ∈ e.maximum_version, (c == ')') = false ∧ isLineTermCh c = false) ∧
        pyStrip e.maximum_version = e.maximum_version := by
    obtain ⟨h1, h2, h3, h4, h5, h6⟩ := he
    exact ⟨h1, h2, h3, h4, h5, h6⟩
  obtain ⟨hgne, hgall⟩ := groupCore_facts hgc
  obtain ⟨c0, nr, hnshape, hlow, hnall⟩ := nameCore_facts hnc
  have hmne := orderableCore_ne_nil hmc
  have hmall := orderableCore_all_groupCh hmc
  rw [to_line_decomp]
  unfold parseLockLine
  dsimp only []
  have st1 := takeWhile_dropWhile_append e.product_group
    (':' :: (e.product_name ++ ' ' :: '(' :: (e.minimum_version ++ ',' :: ' ' ::
      (e.maximum_version ++ ')' :: (if e.optional then str " optional" else [])))))
    hgall (headNot_cons (by decide))
  rw [st1.1, st1.2]
  rw [if_neg (by simp [List.isEmpty_iff, hgne])]
  dsimp only []
  rw [if_pos (by decide : ((':' : Char) == ':') = true)]
  rw [hnshape]
  dsimp only [List.cons_append]
  rw [if_pos hlow]
  have st2 := takeWhile_dropWhile_append e.product_name
    (' ' :: '(' :: (e.minimum_version ++ ',' :: ' ' ::
      (e.maximum_version ++ ')' :: (if e.optional then str " optional" else []))))
    hnall (headNot_cons (by decide))
  rw [hnshape] at st2
  rw [show (c0 :: nr : Str) ++ ' ' :: '(' :: (e.minimum_version ++ ',' :: ' ' ::
      (e.maximum_version ++ ')' :: (if e.optional then str " optional" else []))) =
      c0 :: (nr ++ ' ' :: '(' :: (e.minimum_version ++ ',' :: ' ' ::
      (e.maximum_version ++ ')' :: (if e.optional then str " optional" else []))))
    from rfl] at st2
  rw [st2.1, st2.2]
  dsimp only []
  rw [if_pos (by decide : isPySpaceCh ' ' = true)]
  have st3 := @takeWhile_dropWhile_append isPySpaceCh ([' '] : Str)
    ('(' :: (e.minimum_version ++ ',' :: ' ' ::
      (e.maximum_version ++ ')' :: (if e.optional then str " optional" else []))))
    (by intro c hc; rcases List.mem_singleton.mp hc with rfl; decide)
    (headNot_cons (by decide))
  rw [show (([' '] : Str) ++ '(' :: (e.minimum_version ++ ',' :: ' ' ::
      (e.maximum_version ++ ')' :: (if e.optional then str " optional" else [])))) =
      ' ' :: '(' :: (e.minimum_version ++ ',' :: ' ' ::
      (e.maximum_version ++ ')' :: (if e.optional then str " optional" else [])))
    from rfl] at st3
  rw [st3.2]
  dsimp only []
  rw [if_pos (by decide : (('(' : Char) == '(') = true)]
  have st4 := @takeWhile_dropWhile_append (fun c => !(c == ',')) e.minimum_version
    (',' :: ' ' :: (e.maximum_version ++ ')' ::
      (if e.optional then str " optional" else [])))
    (fun c hc => by
      show (!(c == ',')) = true
      rw [groupCh_ne_comma (hmall c hc)]
      rfl)
    (headNot_cons (by decide))
  rw [st4.1, st4.2]
  rw [if_neg (by simp [List.isEmpty_iff, hmne])]
  dsimp only []
  have st5 := @takeWhile_dropWhile_append (fun c => !(c == ')')) (' ' :: e.maximum_version)
    (')' :: (if e.optional then str " optional" else []))
    (by
      intro c hc
      show (!(c == ')')) = true
      rcases List.mem_cons.mp hc with rfl | hc
      · decide
      · rw [(hxsafe c hc).1]
        rfl)
    (headNot_cons (by decide))
  rw [show ((' ' :: e.maximum_version : Str) ++ ')' ::
      (if e.optional then str " optional" else [])) =
      ' ' :: (e.maximum_version ++ ')' :: (if e.optional then str " optional" else []))
    from rfl] at st5
  rw [st5.1, st5.2]
  rw [if_neg (by simp [List.isEmpty_iff])]
  dsimp only []
  rw [parseTailOpt_flag e.optional]
  dsimp only []
  have hstripMin : pyStrip e.minimum_version = e.minimum_version :=
    pyStrip_id_of_all (fun c hc => groupCh_not_space (hmall c hc))
  have hstripMax : pyStrip (' ' :: e.maximum_version) = e.maximum_version := by
    rw [pyStrip_cons_space (by decide), hxstrip]
  rw [hstripMin, hstripMax, ← hnshape]

theorem to_line_no_term {e : LockEntry} (he : GoodEntry e) :
    ∀ c ∈ e.to_line, isLineTermCh c = false := by
  obtain ⟨hgc, hnc, hmc, hxne, hxsafe, hxstrip⟩ :
      groupCore e.product_group = true ∧ nameCore e.product_name = true ∧
        orderableCore e.minimum_version = true ∧ e.maximum_version ≠ [] ∧
        (∀ c ∈ e.maximum_version, (c == ')') = false ∧ isLineTermCh c = false) ∧
        pyStrip e.maximum_version = e.maximum_version := by
    obtain ⟨h1, h2, h3, h4, h5, h6⟩ := he
    exact ⟨h1, h2, h3, h4, h5, h6⟩
  obtain ⟨hgne, hgall⟩ := groupCore_facts hgc
  obtain ⟨c0, nr, hnshape, hlow, hnall⟩ := nameCore_facts hnc
  have hmall := orderableCore_all_groupCh hmc
  rw [to_line_decomp]
  intro c hc
  rcases List.mem_append.mp hc with hc | hc
  · exact groupCh_not_term (hgall c hc)
  rcases List.mem_cons.mp hc with rfl | hc
  · decide
  rcases List.mem_append.mp hc with hc | hc
  · exact groupCh_not_term (hnall c hc)
  rcases List.mem_cons.mp hc with rfl | hc
  · decide
  rcases List.mem_cons.mp hc with rfl | hc
  · decide
  rcases List.mem_append.mp hc with hc | hc
  · exact groupCh_not_term (hmall c hc)
  rcases List.mem_cons.mp hc with rfl | hc
  · decide
  rcases List.mem_cons.mp hc with rfl | hc
  · decide
  rcases List.mem_append.mp hc with hc | hc
  · exact (hxsafe c hc).2
  rcases List.mem_cons.mp hc with rfl | hc
  · decide
  by_cases ho : e.optional = true
  · rw [if_pos ho] at hc
    exact (by decide : ∀ x ∈ (str " optional" : Str), isLineTermCh x = false) c hc
  · rw [if_neg ho] at hc
    exact absurd hc (List.not_mem_nil c)

theorem to_line_flat (e : LockEntry) :
    e.to_line = (e.product_group ++ [':'] ++ e.product_name ++ [' ', '('] ++
      e.minimum_version ++ [',', ' '] ++ e.maximum_version ++ [')']) ++
      (if e.optional then str " optional" else []) := by
  rw [to_line_decomp]
  simp [List.append_assoc]

theorem headNot_reverse_of_getLast {p : Char → Bool} {cs : Str} {x : Char}
    (h : cs.getLast? = some x) (hx : p x = false) : HeadNot p cs.reverse := by
  cases hrev : cs.reverse with
  | nil => trivial
  | cons c rest =>
    have hcs : cs = rest.reverse ++ [c] := by
      have h2 := congrArg List.reverse hrev
      rw [List.reverse_reverse] at h2
      rw [h2, List.reverse_cons]
    have hlast : cs.getLast? = some c := by
      rw [hcs]
      exact List.getLast?_concat _
    rw [h] at hlast
    exact headNot_cons ((Option.some.inj hlast) ▸ hx)

theorem to_line_getLast (e : LockEntry) :
    e.to_line.getLast? = some ')' ∨ e.to_line.getLast? = some 'l' := by
  rw [to_line_flat]
  by_cases ho : e.optional = true
  · right
    rw [if_pos ho]
    rw [List.getLast?_append_of_ne_nil _ (by decide : (str " optional" : Str) ≠ [])]
    decide
  · left
    rw [if_neg ho, List.append_nil]
    exact List.getLast?_concat _

theorem to_line_strip {e : LockEntry} (he : GoodEntry e) : pyStrip e.to_line = e.to_line := by
  obtain ⟨hgc, _, _, _⟩ := he
  obtain ⟨hgne, hgall⟩ := groupCore_facts hgc
  apply pyStrip_id
  · rw [to_line_decomp]
    cases hg : e.product_group with
    | nil => exact absurd hg hgne
    | cons g0 g2 =>
      exact headNot_cons (groupCh_not_space
        (hgall g0 (by rw [hg]; exact List.mem_cons_self g0 g2)))
  · rcases to_line_getLast e with h | h
    · exact headNot_reverse_of_getLast h (by decide)
    · exact headNot_reverse_of_getLast h (by decide)

theorem to_line_ne_nil {e : LockEntry} (he : GoodEntry e) : e.to_line ≠ [] := by
  obtain ⟨hgc, _, _, _⟩ := he
  obtain ⟨hgne, _⟩ := groupCore_facts hgc
  rw [to_line_decomp]
  cases hg : e.product_group with
  | nil => exact absurd hg hgne
  | cons g0 g2 => simp

theorem to_line_head_ne_hash {e : LockEntry} (he : GoodEntry e) :
    (e.to_line.head? == some '#') = false := by
  obtain ⟨hgc, _, _, _⟩ := he
  obtain ⟨hgne, hgall⟩ := groupCore_facts hgc
  rw [to_line_decomp]
  cases hg : e.product_group with
  | nil => exact absurd hg hgne
  | cons g0 g2 =>
    have hne := groupCh_ne_hash (hgall g0 (by rw [hg]; exact List.mem_cons_self g0 g2))
    simp only [List.cons_append, List.head?_cons, beq_eq_false_iff_ne]
    intro hcon
    exact hne (Option.some.inj hcon)

theorem parseGo_skip (n : Nat) {l : Str} (rest : List Str)
    (h : (pyStrip l).isEmpty = true ∨ ((pyStrip l).head? == some '#') = true) :
    parseLockLinesGo n (l :: rest) = parseLockLinesGo (n + 1) rest := by
  conv_lhs => unfold parseLockLinesGo
  dsimp only []
  by_cases he : (pyStrip l).isEmpty = true
  · rw [if_pos he]
  · rw [if_neg he]
    rcases h with h | h
    · exact absurd h he
    · rw [if_pos h]

theorem parseGo_toLines : ∀ (es : List LockEntry), (∀ e ∈ es, GoodEntry e) →
    ∀ n, parseLockLinesGo n (es.map LockEntry.to_line) = .ok es := by
  intro es
  induction es with
  | nil => intro _ n; rfl
  | cons e es2 ih =>
    intro hall n
    have he := hall e (List.mem_cons_self e es2)
    have hrest : ∀ x ∈ es2, GoodEntry x := fun x hx => hall x (List.mem_cons_of_mem e hx)
    rw [List.map_cons]
    conv_lhs => unfold parseLockLinesGo
    dsimp only []
    rw [to_line_strip he]
    have hne : ¬ ((LockEntry.to_line e).isEmpty = true) := by
      simp only [List.isEmpty_iff]
      exact to_line_ne_nil he
    rw [if_neg hne]
    rw [if_neg (by simp [to_line_head_ne_hash he] :
      ¬ (((LockEntry.to_line e).head? == some '#') = true))]
    rw [parseLockLine_toLine he]
    dsimp only []
    rw [ih hrest (n + 1)]

theorem safeMaxB_safeMax {m : Str} (h : safeMaxB m = true) : SafeMax m := by
  unfold safeMaxB at h
  rcases Bool.and_eq_true_iff.mp h with ⟨h12, h3⟩
  rcases Bool.and_eq_true_iff.mp h12 with ⟨h1, h2⟩
  refine ⟨ne_nil_of_not_isEmpty h1, ?_, eq_of_beq h3⟩
  intro c hc
  have hcc := List.all_eq_true.mp h2 c hc
  rcases Bool.and_eq_true_iff.mp hcc with ⟨ha, hb⟩
  constructor
  · cases hra : (c == ')')
    · rfl
    · rw [hra] at ha
      exact absurd ha (by decide)
  · cases hrb : isLineTermCh c
    · rfl
    · rw [hrb] at hb
      exact absurd hb (by decide)

theorem toLockEntry_good {d : ProductDependency} (h : strictDep d = true) :
    GoodEntry (toLockEntry d) := by
  unfold strictDep at h
  rcases Bool.and_eq_true_iff.mp h with ⟨h123, h4⟩
  rcases Bool.and_eq_true_iff.mp h123 with ⟨h12, h3⟩
  rcases Bool.and_eq_true_iff.mp h12 with ⟨h1, h2⟩
  refine ⟨h1, h2, h3, ?_⟩
  cases hm : d.maximum_version with
  | some m =>
    rw [hm] at h4
    dsimp only [] at h4
    have hx : (toLockEntry d).maximum_version = m := by
      unfold toLockEntry
      dsimp only []
      rw [hm]
    rw [hx]
    exact safeMaxB_safeMax h4
  | none =>
    have hx : (toLockEntry d).maximum_version =
        resolve_default_max_version d.minimum_version := by
      unfold toLockEntry
      dsimp only []
      rw [hm]
    rw [hx]
    have hminall := orderableCore_all_groupCh h3
    have hsub : ∀ c ∈ d.minimum_version.takeWhile (fun c => !(c == '.')),
        isGroupCh c = true :=
      fun c hc => hminall c ((List.takeWhile_prefix _).subset hc)
    unfold resolve_default_max_version
    refine ⟨?_, ?_, ?_⟩
    · intro hcon
      exact absurd (List.append_eq_nil.mp hcon).2 (by decide)
    · intro c hc
      rcases List.mem_append.mp hc with hc | hc
      · exact ⟨groupCh_ne_rparen (hsub c hc), groupCh_not_term (hsub c hc)⟩
      · exact (by decide : ∀ x ∈ (str ".x.x" : Str),
          (x == ')') = false ∧ isLineTermCh x = false) c hc
    · apply pyStrip_id_of_all
      intro c hc
      rcases List.mem_append.mp hc with hc | hc
      · exact groupCh_not_space (hsub c hc)
      · exact (by decide : ∀ x ∈ (str ".x.x" : Str), isPySpaceCh x = false) c hc

theorem header_split (lines : List Str) :
    intercalateNL (_LOCK_HEADER :: lines) =
      intercalateNL (str "# product-dependencies.lock" ::
        str "# Run pants sls-lock to regenerate this file" :: ([] : Str) :: lines) := by
  cases lines with
  | nil => decide
  | cons l ls =>
    simp only [intercalateNL_cons_cons]
    rw [show (_LOCK_HEADER : Str) =
      str "# product-dependencies.lock" ++ '\n' ::
        (str "# Run pants sls-lock to regenerate this file" ++ ['\n']) from by decide]
    simp

theorem parse_generate (deps : List ProductDependency)
    (h : ∀ d ∈ deps, strictDep d = true) :
    parse_lock_file (generate_lock_file deps) =
      .ok (List.insertionSort lockLe (deps.map toLockEntry)) := by
  have hgood : ∀ e ∈ List.insertionSort lockLe (deps.map toLockEntry), GoodEntry e := by
    intro e he
    have hmem : e ∈ deps.map toLockEntry :=
      (List.perm_insertionSort lockLe (deps.map toLockEntry)).mem_iff.mp he
    rcases List.mem_map.mp hmem with ⟨d, hd, rfl⟩
    exact toLockEntry_good (h d hd)
  have hnt : ∀ l ∈ (str "# product-dependencies.lock" ::
      str "# Run pants sls-lock to regenerate this file" :: ([] : Str) ::
      (List.insertionSort lockLe (deps.map toLockEntry)).map LockEntry.to_line),
      ∀ c ∈ l, isLineTermCh c = false := by
    intro l hl
    rcases List.mem_cons.mp hl with rfl | hl
    · decide
    rcases List.mem_cons.mp hl with rfl | hl
    · decide
    rcases List.mem_cons.mp hl with rfl | hl
    · intro c hc
      exact absurd hc (List.not_mem_nil c)
    rcases List.mem_map.mp hl with ⟨e, he, rfl⟩
    exact to_line_no_term (hgood e he)
  unfold generate_lock_file parse_lock_file
  rw [header_split]
  rw [pySplitlines_intercalate
    (str "# product-dependencies.lock" ::
      str "# Run pants sls-lock to regenerate this file" :: ([] : Str) ::
      (List.insertionSort lockLe (deps.map toLockEntry)).map LockEntry.to_line)
    (by simp) hnt]
  rw [parseGo_skip 1 _ (Or.inr (by decide)),
      parseGo_skip 2 _ (Or.inr (by decide)),
      parseGo_skip 3 _ (Or.inl (by decide))]
  exact parseGo_toLines _ hgood 4

/-- C1 (counterexample): the claim quantifies over dependencies with a valid
group, a valid name and an orderable minimum version, but leaves
`maximum_version` unconstrained; `C1badDep` satisfies all three validity
conditions, yet `parse_lock_file` rejects the generated file because its
maximum version `")"` collides with the closing parenthesis of the lock-line
syntax.  Also, `generate_lock_file []` does not end in exactly one newline:
`"\n".join([_LOCK_HEADER] + lines) + "\n"` appends a second newline after the
header block, so the file ends in `"\n\n"`. -/
theorem C1_counterexample :
    is_valid_product_group C1badDep.product_group = true ∧
    is_valid_product_name C1badDep.product_name = true ∧
    is_orderable_version C1badDep.minimum_version = true ∧
    exceptOk (parse_lock_file (generate_lock_file [C1badDep])) = false ∧
    ¬ endsInExactlyOneNewline (generate_lock_file []) :=
  ⟨by decide, by decide, by decide, by decide,
    by unfold endsInExactlyOneNewline; decide⟩

/-- C1 (amended): for every list of dependencies whose group, name and
minimum version match their grammars exactly and whose explicit maximum
version, if any, is non-empty, free of `")"` and of line terminators, and
has no surrounding whitespace, `parse_lock_file (generate_lock_file deps)`
returns exactly the lock entries of the input — with the same
(group, name, minimum, effective maximum = explicit-or-`<major>.x.x`,
optional) tuple per dependency — as a permutation of the input entries
sorted by `product_id` ascending; `generate_lock_file []` is the two-line
header followed by a blank line, i.e. it ends in two newlines, not one. -/
theorem C1_theorem (deps : List ProductDependency)
    (h : ∀ d ∈ deps, strictDep d = true) :
    parse_lock_file (generate_lock_file deps) =
      .ok (List.insertionSort lockLe (deps.map toLockEntry)) ∧
    (List.insertionSort lockLe (deps.map toLockEntry)).Perm (deps.map toLockEntry) ∧
    List.Sorted lockLe (List.insertionSort lockLe (deps.map toLockEntry)) ∧
    generate_lock_file [] =
      str "# product-dependencies.lock\n# Run pants sls-lock to regenerate this file\n\n" := by
  haveI : IsTotal LockEntry lockLe := ⟨fun a b => strLe_total _ _⟩
  haveI : IsTrans LockEntry lockLe := ⟨fun a b c => strLe_trans _ _ _⟩
  exact ⟨parse_generate deps h, List.perm_insertionSort lockLe _,
    List.sorted_insertionSort lockLe _, by decide⟩

/-- C1 (witness): the round trip at a concrete two-dependency input, one
with an explicit maximum version and one with the derived `5.x.x`. -/
theorem C1_witness :
    parse_lock_file (generate_lock_file [C1dep, C1dep2]) =
      .ok (List.insertionSort lockLe ([C1dep, C1dep2].map toLockEntry)) ∧
    (List.insertionSort lockLe ([C1dep, C1dep2].map toLockEntry)).Perm
      ([C1dep, C1dep2].map toLockEntry) ∧
    List.Sorted lockLe (List.insertionSort lockLe ([C1dep, C1dep2].map toLockEntry)) ∧
    generate_lock_file [] =
      str "# product-dependencies.lock\n# Run pants sls-lock to regenerate this file\n\n" :=
  C1_theorem [C1dep, C1dep2] (by decide)

theorem optPath_sublist (o : Option Str) (p : Str) : (optPath o p).Sublist [p] := by
  cases o with
  | none => exact List.nil_sublist _
  | some s => exact List.Sublist.refl _

theorem optPath2_sublist (o1 o2 : Option Str) (p : Str) :
    (optPath2 o1 o2 p).Sublist [p] := by
  cases o1 with
  | some s => exact List.Sublist.refl _
  | none =>
    cases o2 with
    | some s => exact List.Sublist.refl _
    | none => exact List.nil_sublist _

theorem hookPaths_nodup {hs : List (Str × Str)} (hkeys : (hs.map Prod.fst).Nodup) :
    (hs.map (fun kv => str "hooks/" ++ kv.1)).Nodup := by
  have h1 : List.Pairwise (fun a b : Str × Str => a.1 ≠ b.1) hs :=
    List.pairwise_map.mp hkeys
  exact List.pairwise_map.mpr (h1.imp fun hne hcon => hne (List.append_cancel_left hcon))

theorem assetPaths_nodup {ams : List AssetMapping}
    (hdest : (ams.map AssetMapping.dest_path).Nodup) :
    (ams.map (fun m => str "asset/" ++ m.dest_path)).Nodup := by
  have h1 : List.Pairwise (fun a b : AssetMapping => a.dest_path ≠ b.dest_path) ams :=
    List.pairwise_map.mp hdest
  exact List.pairwise_map.mpr (h1.imp fun hne hcon => hne (List.append_cancel_left hcon))

theorem buildLayout_paths (pn pv my lsy ins : Str)
    (csc css lcy lfc hec hlc hsc : Option Str) (hs : List (Str × Str)) :
    pathsOfFiles (build_layout pn pv my lsy ins csc css lcy lfc hec hlc hsc hs) =
      [str "deployment/manifest.yml"] ++
      optPath lfc (str "deployment/product-dependencies.lock") ++
      [str "service/bin/init.sh", str "service/bin/launcher-static.yml"] ++
      optPath lcy (str "service/bin/launcher-check.yml") ++
      optPath2 csc css (str "service/monitoring/bin/check.sh") ++
      optPath hec (str "service/bin/entrypoint.sh") ++
      optPath hlc (str "service/lib/hooks.sh") ++
      optPath hsc (str "hooks/startup.d/00-main.sh") ++
      hs.map (fun kv => str "hooks/" ++ kv.1) := by
  unfold pathsOfFiles build_layout
  dsimp only []
  rw [List.map_append, List.map_map]
  cases lfc <;> cases lcy <;> cases csc <;> cases css <;> cases hec <;> cases hlc <;>
    cases hsc <;> rfl

theorem layoutPaths_sublist (lfc lcy csc css hec hlc hsc : Option Str) (K : List Str) :
    ([str "deployment/manifest.yml"] ++
      optPath lfc (str "deployment/product-dependencies.lock") ++
      [str "service/bin/init.sh", str "service/bin/launcher-static.yml"] ++
      optPath lcy (str "service/bin/launcher-check.yml") ++
      optPath2 csc css (str "service/monitoring/bin/check.sh") ++
      optPath hec (str "service/bin/entrypoint.sh") ++
      optPath hlc (str "service/lib/hooks.sh") ++
      optPath hsc (str "hooks/startup.d/00-main.sh") ++ K).Sublist
    ([str "deployment/manifest.yml"] ++ [str "deployment/product-dependencies.lock"] ++
      [str "service/bin/init.sh", str "service/bin/launcher-static.yml"] ++
      [str "service/bin/launcher-check.yml"] ++ [str "service/monitoring/bin/check.sh"] ++
      [str "service/bin/entrypoint.sh"] ++ [str "service/lib/hooks.sh"] ++
      optPath hsc (str "hooks/startup.d/00-main.sh") ++ K) := by
  refine List.Sublist.append ?_ (List.Sublist.refl K)
  refine List.Sublist.append ?_ (List.Sublist.refl _)
  refine List.Sublist.append ?_ (optPath_sublist hlc _)
  refine List.Sublist.append ?_ (optPath_sublist hec _)
  refine List.Sublist.append ?_ (optPath2_sublist csc css _)
  refine List.Sublist.append ?_ (optPath_sublist lcy _)
  refine List.Sublist.append ?_ (List.Sublist.refl _)
  exact List.Sublist.append (List.Sublist.refl _) (optPath_sublist lfc _)

theorem layoutMaster_nodup (hsc : Option Str) (hs : List (Str × Str))
    (hkeys : (hs.map Prod.fst).Nodup)
    (hmain : hsc.isSome = true → str "startup.d/00-main.sh" ∉ hs.map Prod.fst) :
    ([str "deployment/manifest.yml"] ++ [str "deployment/product-dependencies.lock"] ++
      [str "service/bin/init.sh", str "service/bin/launcher-static.yml"] ++
      [str "service/bin/launcher-check.yml"] ++ [str "service/monitoring/bin/check.sh"] ++
      [str "service/bin/entrypoint.sh"] ++ [str "service/lib/hooks.sh"] ++
      optPath hsc (str "hooks/startup.d/00-main.sh") ++
      hs.map (fun kv => str "hooks/" ++ kv.1)).Nodup := by
  have hK : (hs.map (fun kv => str "hooks/" ++ kv.1)).Nodup := hookPaths_nodup hkeys
  have hOPK : (optPath hsc (str "hooks/startup.d/00-main.sh") ++
      hs.map (fun kv => str "hooks/" ++ kv.1)).Nodup := by
    cases hsc with
    | none => exact hK
    | some s =>
      rw [List.nodup_append]
      refine ⟨(by decide : ([str "hooks/startup.d/00-main.sh"] : List Str).Nodup), hK, ?_⟩
      intro a ha hb
      have ha2 : a = str "hooks/startup.d/00-main.sh" := by
        simpa [optPath] using ha
      subst ha2
      rcases List.mem_map.mp hb with ⟨kv, hkv, heq⟩
      have hsplit : (str "hooks/startup.d/00-main.sh" : Str) =
          str "hooks/" ++ str "startup.d/00-main.sh" := by decide
      have hk2 : kv.1 = str "startup.d/00-main.sh" :=
        List.append_cancel_left (heq.trans hsplit)
      exact hmain rfl (List.mem_map.mpr ⟨kv, hkv, hk2⟩)
  have heq : ([str "deployment/manifest.yml"] ++
      [str "deployment/product-dependencies.lock"] ++
      [str "service/bin/init.sh", str "service/bin/launcher-static.yml"] ++
      [str "service/bin/launcher-check.yml"] ++ [str "service/monitoring/bin/check.sh"] ++
      [str "service/bin/entrypoint.sh"] ++ [str "service/lib/hooks.sh"] ++
      optPath hsc (str "hooks/startup.d/00-main.sh") ++
      hs.map (fun kv => str "hooks/" ++ kv.1)) =
      [str "deployment/manifest.yml", str "deployment/product-dependencies.lock",
       str "service/bin/init.sh", str "service/bin/launcher-static.yml",
       str "service/bin/launcher-check.yml", str "service/monitoring/bin/check.sh",
       str "service/bin/entrypoint.sh", str "service/lib/hooks.sh"] ++
      (optPath hsc (str "hooks/startup.d/00-main.sh") ++
       hs.map (fun kv => str "hooks/" ++ kv.1)) := by
    simp [List.append_assoc]
  rw [heq, List.nodup_append]
  refine ⟨by decide, hOPK, ?_⟩
  intro a ha hb
  have hh : a.head? = some 'h' := by
    rcases List.mem_append.mp hb with hb | hb
    · cases hsc with
      | none => exact absurd hb (List.not_mem_nil a)
      | some s =>
        have ha3 : a = str "hooks/startup.d/00-main.sh" := by
          simpa [optPath] using hb
        subst ha3
        decide
    · rcases List.mem_map.mp hb with ⟨kv, _, heq2⟩
      rw [← heq2]
      rfl
  simp at ha
  rcases ha with rfl | rfl | rfl | rfl | rfl | rfl | rfl | rfl <;>
    exact absurd hh (by decide)

/-- C9 (counterexample): `validate_hook_paths` accepts the key
`startup.d/00-main.sh`, but when the auto-generated startup script is also
present, `build_layout` emits `hooks/startup.d/00-main.sh` twice, so the file
paths are not pairwise unique; likewise two asset mappings with the same
destination make `build_asset_layout` emit `asset/cfg/app.yml` twice. -/
theorem C9_counterexample :
    validate_hook_paths [str "startup.d/00-main.sh"] = .ok () ∧
    ¬ (pathsOfFiles (build_layout (str "svc") (str "1.0.0") (str "m") (str "l")
        (str "i") none none none none none none (some (str "s"))
        [(str "startup.d/00-main.sh", str "src/hook.sh")])).Nodup ∧
    ¬ (pathsOfFiles (build_asset_layout (str "app") (str "1.0.0") (str "m") none
        C9assetDup)).Nodup :=
  ⟨by decide, by decide, by decide⟩

/-- C9 (amended): the relative paths of the files and of the directories of
`build_layout` are pairwise unique for every combination of optional inputs,
provided the hook-script keys are pairwise distinct (Python dict keys always
are) and, when the generated startup script is present, no hook key equals
`startup.d/00-main.sh`; the paths of `build_asset_layout` are pairwise unique
provided the asset destination paths are pairwise distinct.  Without these
provisos path collisions occur (see the counterexample). -/
theorem C9_theorem (pn pv my lsy ins : Str) (csc css lcy lfc hec hlc hsc : Option Str)
    (hs : List (Str × Str)) (amy : Str) (alfc : Option Str) (ams : List AssetMapping)
    (hkeys : (hs.map Prod.fst).Nodup)
    (hmain : hsc.isSome = true → str "startup.d/00-main.sh" ∉ hs.map Prod.fst)
    (hdest : (ams.map AssetMapping.dest_path).Nodup) :
    (pathsOfFiles (build_layout pn pv my lsy ins csc css lcy lfc hec hlc hsc hs)).Nodup ∧
    (pathsOfDirs (build_layout pn pv my lsy ins csc css lcy lfc hec hlc hsc hs)).Nodup ∧
    (pathsOfFiles (build_asset_layout pn pv amy alfc ams)).Nodup ∧
    (pathsOfDirs (build_asset_layout pn pv amy alfc ams)).Nodup := by
  refine ⟨?_, ?_, ?_, ?_⟩
  · rw [buildLayout_paths]
    exact List.Nodup.sublist (layoutPaths_sublist lfc lcy csc css hec hlc hsc _)
      (layoutMaster_nodup hsc hs hkeys hmain)
  · have hd : pathsOfDirs (build_layout pn pv my lsy ins csc css lcy lfc hec hlc hsc hs) =
        [str "var/data/tmp", str "var/log", str "var/run"] ++
        (match hec with
         | some _ => HOOK_PHASES.map (fun phase => str "hooks/" ++ phase ++ str ".d") ++
             [str "var/state", str "var/metrics"]
         | none => []) := by
      cases hec <;> rfl
    rw [hd]
    cases hec with
    | none => decide
    | some s =>
      exact (by decide : (([str "var/data/tmp", str "var/log", str "var/run"] ++
        (HOOK_PHASES.map (fun phase => str "hooks/" ++ phase ++ str ".d") ++
          [str "var/state", str "var/metrics"])) : List Str).Nodup)
  · have ha : pathsOfFiles (build_asset_layout pn pv amy alfc ams) =
        [str "deployment/manifest.yml"] ++
        optPath alfc (str "deployment/product-dependencies.lock") ++
        ams.map (fun m => str "asset/" ++ m.dest_path) := by
      unfold pathsOfFiles build_asset_layout
      dsimp only []
      rw [List.map_append, List.map_map]
      cases alfc <;> rfl
    rw [ha]
    refine List.Nodup.sublist
      (List.Sublist.append
        (List.Sublist.append (List.Sublist.refl _) (optPath_sublist alfc _))
        (List.Sublist.refl _)) ?_
    have heq2 : (([str "deployment/manifest.yml"] ++
        [str "deployment/product-dependencies.lock"]) ++
        ams.map (fun m => str "asset/" ++ m.dest_path)) =
        ([str "deployment/manifest.yml", str "deployment/product-dependencies.lock"] ++
         ams.map (fun m => str "asset/" ++ m.dest_path)) := by
      simp
    rw [heq2, List.nodup_append]
    refine ⟨by decide, assetPaths_nodup hdest, ?_⟩
    intro a ha2 hb
    rcases List.mem_map.mp hb with ⟨m, _, heq3⟩
    have hh : a.head? = some 'a' := by
      rw [← heq3]
      rfl
    simp at ha2
    rcases ha2 with rfl | rfl <;> exact absurd hh (by decide)
  · show ([str "asset"] : List Str).Nodup
    decide

/-- C9 (witness): a fully-featured service layout with two well-named hook
scripts and an asset layout with two distinct destinations have pairwise
unique paths. -/
theorem C9_witness :
    (pathsOfFiles (build_layout (str "svc") (str "1.0.0") (str "m") (str "l")
      (str "i") (some (str "c")) none (some (str "y")) (some (str "lock"))
      (some (str "e")) (some (str "lib")) (some (str "s"))
      [(str "startup.d/10-custom.sh", str "src/a.sh"),
       (str "shutdown.d/10-stop.sh", str "src/b.sh")])).Nodup ∧
    (pathsOfDirs (build_layout (str "svc") (str "1.0.0") (str "m") (str "l")
      (str "i") (some (str "c")) none (some (str "y")) (some (str "lock"))
      (some (str "e")) (some (str "lib")) (some (str "s"))
      [(str "startup.d/10-custom.sh", str "src/a.sh"),
       (str "shutdown.d/10-stop.sh", str "src/b.sh")])).Nodup ∧
    (pathsOfFiles (build_asset_layout (str "svc") (str "1.0.0") (str "am")
      (some (str "alock"))
      [{ source_path := str "files/a.txt", dest_path := str "cfg/a.yml" },
       { source_path := str "files/b.txt", dest_path := str "cfg/b.yml" }])).Nodup ∧
    (pathsOfDirs (build_asset_layout (str "svc") (str "1.0.0") (str "am")
      (some (str "alock"))
      [{ source_path := str "files/a.txt", dest_path := str "cfg/a.yml" },
       { source_path := str "files/b.txt", dest_path := str "cfg/b.yml" }])).Nodup :=
  C9_theorem (str "svc") (str "1.0.0") (str "m") (str "l") (str "i")
    (some (str "c")) none (some (str "y")) (some (str "lock"))
    (some (str "e")) (some (str "lib")) (some (str "s"))
    [(str "startup.d/10-custom.sh", str "src/a.sh"),
     (str "shutdown.d/10-stop.sh", str "src/b.sh")]
    (str "am") (some (str "alock"))
    [{ source_path := str "files/a.txt", dest_path := str "cfg/a.yml" },
     { source_path := str "files/b.txt", dest_path := str "cfg/b.yml" }]
    (by decide) (by decide) (by decide)
